import Mathlib

/-!
Verification of the ECU log analyzer core (map-file symbol table, TRAP
restart analysis, SOA counter reconstruction).  Python strings are
embedded as `List Char`; Python dicts (insertion ordered) as association
lists whose insert updates in place and appends new keys at the end.
All character-level operations (`str.lower`, `str.strip`, the regexes
used by the parser) are modelled on the ASCII range, which covers every
character class the parser inspects.
-/

namespace ECU

abbrev Str := List Char

/-- ASCII whitespace, as stripped by `str.strip()` and matched by `\s`. -/
def isAsciiWs (c : Char) : Bool :=
  c = ' ' || c = '\t' || c = '\n' || c = '\r' || c = '\x0b' || c = '\x0c'

/-- `str.lower()` on the ASCII range. -/
def lowerChar (c : Char) : Char :=
  if 'A' ≤ c && c ≤ 'Z' then Char.ofNat (c.toNat + 32) else c

def lowerStr (s : Str) : Str := s.map lowerChar

/-- `str.strip()`: drop whitespace at both ends. -/
def stripStr (s : Str) : Str :=
  ((s.dropWhile isAsciiWs).reverse.dropWhile isAsciiWs).reverse

/-- `s.startswith(p)`. -/
def pyStartswith : Str → Str → Bool
  | _, [] => true
  | [], _ :: _ => false
  | c :: cs, p :: ps => c = p && pyStartswith cs ps

/-- `str.split(sep)` for a single-character separator (never collapses). -/
def splitOnChar (sep : Char) : Str → List Str
  | [] => [[]]
  | c :: cs =>
    if c = sep then [] :: splitOnChar sep cs
    else
      match splitOnChar sep cs with
      | [] => [[c]]
      | f :: r => (c :: f) :: r

/-- needle `in` haystack (contiguous substring test). -/
def containsSub (s : Str) (sub : Str) : Bool :=
  match s with
  | [] => sub.isEmpty
  | _ :: t => pyStartswith s sub || containsSub t sub

def isAsciiAlpha (c : Char) : Bool :=
  ('a' ≤ c && c ≤ 'z') || ('A' ≤ c && c ≤ 'Z')

def isAsciiDigit (c : Char) : Bool := '0' ≤ c && c ≤ '9'

def isHexDigitCh (c : Char) : Bool :=
  isAsciiDigit c || ('a' ≤ c && c ≤ 'f') || ('A' ≤ c && c ≤ 'F')

def hexValCh (c : Char) : Nat :=
  if isAsciiDigit c then c.toNat - '0'.toNat
  else if 'a' ≤ c && c ≤ 'f' then c.toNat - 'a'.toNat + 10
  else c.toNat - 'A'.toNat + 10

def isIdentStart (c : Char) : Bool := isAsciiAlpha c || c = '_'

def isIdentChar (c : Char) : Bool := isAsciiAlpha c || isAsciiDigit c || c = '_'

/-- `re.match(r'0x[0-9a-fA-F]{8}$', p)`: `0x`, exactly 8 hex digits, then
the end of the string (`$` also matches just before one final newline). -/
def matchAddr8 : Str → Bool
  | '0' :: 'x' :: rest =>
    (rest.take 8).length = 8 && (rest.take 8).all isHexDigitCh &&
      (rest.drop 8 = [] || rest.drop 8 = ['\n'])
  | _ => false

/-- `re.match(r'[a-zA-Z_][a-zA-Z0-9_]*$', p)`: a full identifier
(`$` also matches just before one final newline). -/
def matchIdentFull (p : Str) : Bool :=
  let q := if p.getLast? = some '\n' then p.dropLast else p
  match q with
  | c :: cs => isIdentStart c && cs.all isIdentChar
  | [] => false

/-- `re.match(r'[a-zA-Z_][a-zA-Z0-9_]*', p)` without `$`: the match
succeeds as soon as the first character is an identifier start. -/
def identPrefixOk : Str → Bool
  | c :: _ => isIdentStart c
  | [] => false

/-- Hex digit run with single underscores allowed between digits
(continuation of `int(s, 16)`). -/
def hexTail (acc : Nat) : Str → Option Nat
  | [] => some acc
  | '_' :: c :: cs =>
    if isHexDigitCh c then hexTail (acc * 16 + hexValCh c) cs else none
  | c :: cs =>
    if isHexDigitCh c then hexTail (acc * 16 + hexValCh c) cs else none

/-- Digit part of `int(s, 16)` after sign and optional `0x` prefix:
when a prefix was present a single leading underscore is allowed. -/
def hexBody (pref : Bool) : Str → Option Nat
  | '_' :: c :: cs =>
    if pref && isHexDigitCh c then hexTail (hexValCh c) cs else none
  | c :: cs =>
    if isHexDigitCh c then hexTail (hexValCh c) cs else none
  | [] => none

/-- Python `int(s, 16)`: optional surrounding whitespace, optional sign,
optional `0x`/`0X` prefix, then a non-empty hex digit run; `none` models
the `ValueError` raised on any other input. -/
def pyIntHex (s : Str) : Option Int :=
  let t := stripStr s
  let signed : Int × Str :=
    match t with
    | '+' :: r => (1, r)
    | '-' :: r => (-1, r)
    | _ => (1, t)
  let pref : Bool × Str :=
    match signed.2 with
    | '0' :: 'x' :: r => (true, r)
    | '0' :: 'X' :: r => (true, r)
    | _ => (false, signed.2)
  match hexBody pref.1 pref.2 with
  | some n => some (signed.1 * (n : Int))
  | none => none

/-! Association lists with Python-dict semantics: lookup finds the first
(and, for lists built by `assocInsert`, only) entry; insert replaces the
value in place or appends a fresh key at the end. -/

def assocGet {κ α : Type} [DecidableEq κ] : List (κ × α) → κ → Option α
  | [], _ => none
  | (k', v) :: rest, k => if k' = k then some v else assocGet rest k

def assocInsert {κ α : Type} [DecidableEq κ] : List (κ × α) → κ → α → List (κ × α)
  | [], k, v => [(k, v)]
  | (k', v') :: rest, k, v =>
    if k' = k then (k, v) :: rest else (k', v') :: assocInsert rest k v

/-! ## MapFileParser -/

structure MapSymbol where
  address : Str
  name : Str
  sectionName : Str := []
  fileName : Str := []
deriving DecidableEq, Repr

/-- The mutable state of a `MapFileParser` instance: the three symbol
dictionaries, the two lookup caches and the cache statistics. -/
structure MapFileState where
  symbols : List (Str × MapSymbol)
  functions : List (Str × Str)
  variables_ : List (Str × Str)
  lookup_cache : List (Str × Option Str)
  range_cache : List (Str × Str)
  hits : Nat
  misses : Nat
  range_hits : Nat
  range_misses : Nat
deriving DecidableEq, Repr

def emptyMapFileState : MapFileState := ⟨[], [], [], [], [], 0, 0, 0, 0⟩

def function_keywords : List Str :=
  ["func".data, "handler".data, "init".data, "main".data,
   "process".data, "task".data, "isr".data, "os_".data]

/-- `MapFileParser._is_function_symbol`. -/
def is_function_symbol (symbol : Str) : Bool :=
  let symbol_lower := lowerStr symbol
  if function_keywords.any (fun kw => containsSub symbol_lower kw) then true
  else
    match symbol with
    | c :: _ =>
      !containsSub symbol ".".data && ('A' ≤ c && c ≤ 'Z')
    | [] => false

/-- The inner candidate filter used when a symbol name is searched in the
columns around an address (`_parse_tasking_map`, lines 279-295). -/
def candidateOk (cand : Str) : Bool :=
  !cand.isEmpty && !pyStartswith cand "0x".data &&
    !pyStartswith cand "mpe:".data && decide (cand.length > 2) &&
    identPrefixOk cand

def findCandidate (ps : List Str) : Option Str := ps.find? candidateOk

def findAddrIn (ps : List Str) : Option Str :=
  (ps.find? matchAddr8).map lowerStr

/-- The scan over the stripped pipe-separated columns of one map row
(`_parse_tasking_map`, lines 267-307): the first column that is either an
exact 8-hex-digit address or a full identifier decides the row's layout. -/
def scanParts : List Str → List Str → Option (Str × Str)
  | _, [] => none
  | before, p :: after =>
    if p.isEmpty then scanParts (before ++ [p]) after
    else if matchAddr8 p then
      match findCandidate before with
      | some nm => some (lowerStr p, nm)
      | none =>
        match findCandidate after with
        | some nm => some (lowerStr p, nm)
        | none => none
    else if matchIdentFull p && !pyStartswith p "mpe:".data then
      match findAddrIn after with
      | some a => some (a, p)
      | none => none
    else scanParts (before ++ [p]) after

/-- One line of `_parse_tasking_map`: returns the (lower-cased address,
symbol name) pair recorded for the line, if any. -/
def parse_line_symbol (line : Str) : Option (Str × Str) :=
  let line := stripStr line
  if line.isEmpty || !pyStartswith line "|".data then none
  else
    let parts := (splitOnChar '|' line).map stripStr
    if parts.length < 3 then none
    else scanParts [] parts

/-- Record one parsed (address, name) pair into the three dictionaries. -/
def recordSymbol (st : MapFileState) (addr nm : Str) : MapFileState :=
  let st := { st with symbols := assocInsert st.symbols addr ⟨addr, nm, [], []⟩ }
  if is_function_symbol nm then
    { st with functions := assocInsert st.functions addr nm }
  else
    { st with variables_ := assocInsert st.variables_ addr nm }

def parseMapLine (st : MapFileState) (line : Str) : MapFileState :=
  match parse_line_symbol line with
  | none => st
  | some (addr, nm) => recordSymbol st addr nm

/-- `MapFileParser._parse_tasking_map`: fold the per-line parser over the
newline-split content. -/
def parse_tasking_map (content : Str) (st : MapFileState) : MapFileState :=
  (splitOnChar '\n' content).foldl parseMapLine st

/-! ## find_symbol_by_address -/

/-- Normalisation at the top of `find_symbol_by_address`: ensure a
`0x` prefix. -/
def normalizeAddr (address : Str) : Str :=
  if pyStartswith (lowerStr address) "0x".data then address
  else '0' :: 'x' :: address

/-- The linear nearest-symbol scan (lines 371-381): carries the current
`(min_distance, closest_symbol)` pair; a symbol whose stored address does
not parse as hex is skipped. -/
def scanLoop : List (Str × MapSymbol) → Int → Option Nat × Option Str →
    Option Nat × Option Str
  | [], _, acc => acc
  | (_, sym) :: rest, target, (minD, best) =>
    match pyIntHex sym.address with
    | none => scanLoop rest target (minD, best)
    | some sa =>
      let d := (target - sa).natAbs
      if (match minD with
          | none => true
          | some m => decide (d < m)) && decide (d < 4096) then
        scanLoop rest target (some d, some sym.name)
      else
        scanLoop rest target (minD, best)

/-- `MapFileParser.find_symbol_by_address`, including its caches and
statistics; returns the looked-up name together with the updated state. -/
def find_symbol_by_address (st : MapFileState) (address : Str) :
    Option Str × MapFileState :=
  let address := normalizeAddr address
  let addr_key := lowerStr address
  match assocGet st.lookup_cache addr_key with
  | some v => (v, { st with hits := st.hits + 1 })
  | none =>
    match assocGet st.symbols addr_key with
    | some sym =>
      (some sym.name,
        { st with
          lookup_cache := assocInsert st.lookup_cache addr_key (some sym.name),
          hits := st.hits + 1 })
    | none =>
      match assocGet st.range_cache addr_key with
      | some v => (some v, { st with range_hits := st.range_hits + 1 })
      | none =>
        match pyIntHex address with
        | none =>
          (none,
            { st with
              lookup_cache := assocInsert st.lookup_cache addr_key none,
              misses := st.misses + 1 })
        | some target =>
          match (scanLoop st.symbols target (none, none)).2 with
          | some nm =>
            (some nm,
              { st with
                range_cache := assocInsert st.range_cache addr_key nm,
                range_hits := st.range_hits + 1 })
          | none =>
            (none,
              { st with
                lookup_cache := assocInsert st.lookup_cache addr_key none,
                misses := st.misses + 1 })

/-- `MapFileParser._cleanup_cache`: when the exact-lookup cache holds more
than 10000 entries, drop the oldest 2000 (insertion order). -/
def cleanup_cache (st : MapFileState) : MapFileState :=
  if st.lookup_cache.length > 10000 then
    { st with lookup_cache := st.lookup_cache.drop (10000 * 2 / 10) }
  else st

/-- A sequence of `find_symbol_by_address` calls, threading the state. -/
def run_lookups (addrs : List Str) (st : MapFileState) : MapFileState :=
  addrs.foldl (fun s a => (find_symbol_by_address s a).2) st

/-! ## Parallel map-file parsing (`_parse_tasking_map_parallel`) -/

/-- Chunking of the line list (lines 134-139): `chunk_size` lines per
worker, the last worker taking the remainder. -/
def map_chunks (lines : List Str) (max_workers : Nat) : List (List Str) :=
  let chunk_size := lines.length / max_workers
  (List.range max_workers).map (fun i =>
    let start := i * chunk_size
    if i < max_workers - 1 then (lines.drop start).take chunk_size
    else lines.drop start)

/-- `parse_chunk`: per-line parsing into fresh local dictionaries. -/
def parse_chunk (chunk_lines : List Str) : MapFileState :=
  chunk_lines.foldl parseMapLine emptyMapFileState

/-- `dict.update(other)`: fold the other dict's entries into this one. -/
def dictUpdate {κ α : Type} [DecidableEq κ] (g l : List (κ × α)) : List (κ × α) :=
  l.foldl (fun d p => assocInsert d p.1 p.2) g

/-- Merging one worker's local dictionaries into the shared state
(lines 229-235). -/
def mergeChunkResult (st loc : MapFileState) : MapFileState :=
  { st with
    symbols := dictUpdate st.symbols loc.symbols,
    functions := dictUpdate st.functions loc.functions,
    variables_ := dictUpdate st.variables_ loc.variables_ }

/-- `MapFileParser._parse_tasking_map_parallel`: split into chunks, parse
each chunk into local dictionaries, merge the results in the order the
workers complete (`completion_order` lists chunk indices as delivered by
`as_completed`). -/
def parse_tasking_map_parallel (content : Str) (max_workers : Nat)
    (completion_order : List Nat) (st : MapFileState) : MapFileState :=
  let lines := splitOnChar '\n' content
  let chunkStates := (map_chunks lines max_workers).map parse_chunk
  completion_order.foldl
    (fun s i => mergeChunkResult s (chunkStates.getD i emptyMapFileState)) st

/-! ## TrapAnalyzer -/

/-- `int(s)` on a run of decimal digits. -/
def toNatDigits (d : Str) : Nat :=
  d.foldl (fun a c => a * 10 + (c.toNat - '0'.toNat)) 0

/-- The fixed literal part of `trap_func_pattern`,
`r'\x7bTRAP-RST\x7d:Func(\d+):\s*0x([0-9a-fA-F]+)'`. -/
def trap_func_lit : Str := "\x7bTRAP-RST\x7d:Func".data

/-- Drop an expected literal from the front of a string. -/
def dropLit : Str → Str → Option Str
  | s, [] => some s
  | [], _ :: _ => none
  | c :: cs, p :: ps => if c = p then dropLit cs ps else none

/-- Try to match `trap_func_pattern` at the start of `s`; on success
return the two capture groups (index digits, hex digits) and the
remaining text.  The pattern's greedy runs need no backtracking because
each run is followed by a character outside its class. -/
def matchFuncAt (s : Str) : Option (Str × Str × Str) :=
  match dropLit s trap_func_lit with
  | none => none
  | some r1 =>
    let digits := r1.takeWhile isAsciiDigit
    if digits.isEmpty then none
    else
      match r1.dropWhile isAsciiDigit with
      | ':' :: r3 =>
        match r3.dropWhile isAsciiWs with
        | '0' :: 'x' :: r5 =>
          let hexs := r5.takeWhile isHexDigitCh
          if hexs.isEmpty then none
          else some (digits, hexs, r5.dropWhile isHexDigitCh)
        | _ => none
      | _ => none

/-- Left-to-right non-overlapping scan of `re.findall`: `skip` counts the
characters still covered by the previous match. -/
def funcScan : Str → Nat → List (Str × Str)
  | [], _ => []
  | _ :: cs, k + 1 => funcScan cs k
  | s@(_ :: cs), 0 =>
    match matchFuncAt s with
    | some (d, h, rest) => (d, h) :: funcScan cs (cs.length - rest.length)
    | none => funcScan cs 0

/-- `re.findall(trap_func_pattern, trap_block)`. -/
def func_findall (trap_block : Str) : List (Str × Str) := funcScan trap_block 0

/-- Lines 559-564 of `_parse_trap_block`: convert each match to an
`(index, address)` pair, prefixing the address with `0x` when needed. -/
def func_addresses_of (ms : List (Str × Str)) : List (Nat × Str) :=
  ms.map (fun m =>
    let func_num := toNatDigits m.1
    let func_addr :=
      if pyStartswith (lowerStr m.2) "0x".data then m.2 else '0' :: 'x' :: m.2
    (func_num, func_addr))

/-- `trap_info.func_addresses[func_num] = func_addr` over all matches
(Python dict: later assignments to the same index overwrite). -/
def build_func_dict (ms : List (Nat × Str)) : List (Nat × Str) :=
  ms.foldl (fun d p => assocInsert d p.1 p.2) []

/-- Lines 567-570: `max_func_num = max(keys)`;
`max_func_address = func_addresses[max_func_num]`. -/
def max_func_selection (d : List (Nat × Str)) : Option (Nat × Str) :=
  match d.map Prod.fst with
  | [] => none
  | k :: ks =>
    let m := ks.foldl max k
    (assocGet d m).map (fun a => (m, a))

/-- The Func-extraction slice of `_parse_trap_block` (lines 557-570):
the `(max_func_num, max_func_address)` pair recorded on the TrapInfo,
`none` when no Func entries were extracted. -/
def parse_trap_block_max_func (trap_block : Str) : Option (Nat × Str) :=
  max_func_selection (build_func_dict (func_addresses_of (func_findall trap_block)))

structure TrapInfo where
  rest_type : Option Str := none
  deadd_address : Option Str := none
  func_addresses : List (Nat × Str) := []
  max_func_address : Option Str := none
  max_func_num : Option Nat := none
  start_line_number : Option Nat := none
  end_line_number : Option Nat := none
  parameter_name : Option Str := none
  function_name : Option Str := none
  restart_reason : Option Str := none
deriving DecidableEq, Repr

/-- Python truthiness of an optional string (`None` and `""` are falsy). -/
def pyTruthyStr : Option Str → Bool
  | some s => !s.isEmpty
  | none => false

/-- `a or default` on an optional string. -/
def pyOrStr (o : Option Str) (d : Str) : Str :=
  match o with
  | some s => if s.isEmpty then d else s
  | none => d

/-- `" ".flatten(parts)`. -/
def joinSpace : List Str → Str
  | [] => []
  | [s] => s
  | s :: rest => s ++ ' ' :: joinSpace rest

/-- `TrapAnalyzer._generate_restart_reason`: synthesize the diagnosis
string from the resolved names, falling back to a description built from
`rest_type` and the addresses, or to the unknown-reason message. -/
def generate_restart_reason (trap_info : TrapInfo) : TrapInfo :=
  let function_name := pyOrStr trap_info.function_name "未知函数".data
  let parameter_name := pyOrStr trap_info.parameter_name "未知参数".data
  let reason : Str :=
    if pyTruthyStr trap_info.function_name && pyTruthyStr trap_info.parameter_name then
      "重启原因：【".data ++ function_name ++ "】访问【".data ++ parameter_name ++
        "】异常进入Trap".data
    else if pyTruthyStr trap_info.function_name then
      "重启原因：【".data ++ function_name ++ "】访问内存异常进入Trap".data
    else if pyTruthyStr trap_info.parameter_name then
      "重启原因：未知函数访问【".data ++ parameter_name ++ "】异常进入Trap".data
    else
      let reason_parts : List Str :=
        (if pyTruthyStr trap_info.rest_type then
          ["重启类型: ".data ++ trap_info.rest_type.getD []] else []) ++
        (if pyTruthyStr trap_info.deadd_address || pyTruthyStr trap_info.max_func_address then
          ["异常进入TRAP".data] else [])
      if reason_parts.isEmpty then "未知重启原因".data else joinSpace reason_parts
  { trap_info with restart_reason := some reason }

/-! ## SOAAnalyzer -/

structure SOAData where
  timestamp : Str
  base_index : Nat
  counts : List Nat
  data_type : Str
  file_path : Str := []
  line_number : Nat := 0
  raw_line : Str := []
deriving DecidableEq, Repr

structure TopicData where
  topic_name : Str
  topic_index : Nat
  send_counts : List (Str × Nat)
  receive_counts : List (Str × Nat)
  drop_counts : List (Str × Nat)
deriving DecidableEq, Repr

/-- Append one sample to its timestamp's group (groups keep the order of
first appearance, Python dict insertion order). -/
def groupInsert (gs : List (Str × List SOAData)) (d : SOAData) :
    List (Str × List SOAData) :=
  match gs with
  | [] => [(d.timestamp, [d])]
  | (t, l) :: rest =>
    if t = d.timestamp then (t, l ++ [d]) :: rest
    else (t, l) :: groupInsert rest d

/-- Lines 163-167: group all samples by exact timestamp string. -/
def timestamp_groups (ds : List SOAData) : List (Str × List SOAData) :=
  ds.foldl groupInsert []

/-- Append one manifest position to a channel name's index list. -/
def indicesInsert (m : List (Str × List Nat)) (nm : Str) (i : Nat) :
    List (Str × List Nat) :=
  match m with
  | [] => [(nm, [i])]
  | (n, l) :: rest =>
    if n = nm then (n, l ++ [i]) :: rest
    else (n, l) :: indicesInsert rest nm i

/-- Lines 172-176: channel name → list of manifest occurrence indices. -/
def topic_name_to_indices (topics : List Str) : List (Str × List Nat) :=
  topics.enum.foldl (fun m p => indicesInsert m p.2 p.1) []

/-- Lines 179-186: one empty `TopicData` per unique channel name. -/
def init_topic_dict (m : List (Str × List Nat)) : List (Str × TopicData) :=
  m.map (fun p => (p.1, ⟨p.1, 0, [], [], []⟩))

/-- `max((base_index + len(counts) for ...), default=0)`. -/
def flat_length (ds : List SOAData) : Nat :=
  ds.foldl (fun m d => max m (d.base_index + d.counts.length)) 0

/-- `for i, c in enumerate(counts): if pos + i < len(f): f[pos + i] = c`. -/
def overlayFrom (f : List Nat) (pos : Nat) : List Nat → List Nat
  | [] => f
  | c :: cs => overlayFrom (if pos < f.length then f.set pos c else f) (pos + 1) cs

def overlaySample (f : List Nat) (d : SOAData) : List Nat :=
  overlayFrom f d.base_index d.counts

/-- Lines 196-203 / 221-228: rebuild the flat counter vector of one
timestamp group for one kind of sample. -/
def build_full_counts (ds : List SOAData) : List Nat :=
  ds.foldl overlaySample (List.replicate (flat_length ds) 0)

/-- Lines 209-217: append this timestamp's receive (first index) and send
(second index) values to a channel. -/
def append_cnt (flat : List Nat) (ts : Str) (idxs : List Nat) (td : TopicData) :
    TopicData :=
  let td :=
    match idxs with
    | i0 :: _ =>
      if i0 < flat.length then
        { td with receive_counts := td.receive_counts ++ [(ts, flat.getD i0 0)] }
      else td
    | [] => td
  match idxs with
  | _ :: i1 :: _ =>
    if i1 < flat.length then
      { td with send_counts := td.send_counts ++ [(ts, flat.getD i1 0)] }
    else td
  | _ => td

/-- Lines 234-237: append this timestamp's drop value, read only at the
first occurrence index. -/
def append_drop (flat : List Nat) (ts : Str) (idxs : List Nat) (td : TopicData) :
    TopicData :=
  match idxs with
  | i0 :: _ =>
    if i0 < flat.length then
      { td with drop_counts := td.drop_counts ++ [(ts, flat.getD i0 0)] }
    else td
  | [] => td

/-- Update the (first) entry of the topic dict with the given name. -/
def apply_to_topic (d : List (Str × TopicData)) (name : Str)
    (f : TopicData → TopicData) : List (Str × TopicData) :=
  match d with
  | [] => []
  | (n, td) :: rest =>
    if n = name then (n, f td) :: rest
    else (n, td) :: apply_to_topic rest name f

/-- Lines 189-237: handle one timestamp group — rebuild the cnt and drop
flat vectors and distribute their slots to every channel. -/
def process_group (m : List (Str × List Nat)) (dict : List (Str × TopicData))
    (g : Str × List SOAData) : List (Str × TopicData) :=
  let cnt_data := g.2.filter (fun d => d.data_type = "cnt".data)
  let drop_data := g.2.filter (fun d => d.data_type = "drop".data)
  let dict :=
    if cnt_data.isEmpty then dict
    else
      let full_counts := build_full_counts cnt_data
      m.foldl (fun dc p => apply_to_topic dc p.1 (append_cnt full_counts g.1 p.2)) dict
  if drop_data.isEmpty then dict
  else
    let full_drop_counts := build_full_counts drop_data
    m.foldl (fun dc p => apply_to_topic dc p.1 (append_drop full_drop_counts g.1 p.2)) dict

/-- `SOAAnalyzer.process_soa_data`: `none` models the early `return False`
on an empty topic list or an empty sample list. -/
def process_soa_data (topics : List Str) (soa_data_list : List SOAData) :
    Option (List (Str × TopicData)) :=
  if topics.isEmpty then none
  else if soa_data_list.isEmpty then none
  else
    let m := topic_name_to_indices topics
    some ((timestamp_groups soa_data_list).foldl (process_group m) (init_topic_dict m))

/-- The chart payload of one topic: the three data series (timestamps
paired with plotted values, `none` being a null point) and the legend
entries added. -/
structure ChartData where
  recv_data : List (Str × Option Nat)
  send_data : List (Str × Option Nat)
  lost_data : List (Str × Nat)
  legend : List Str
deriving DecidableEq, Repr

/-- `SOAAnalyzer.generate_topic_charts_data`, restricted to the data
series it computes (the fixed styling dictionaries are omitted): topics
with no strictly-positive value anywhere are skipped; zero values of the
receive and send series become null points; drop values are kept. -/
def generate_topic_charts_data (topic_dict : List (Str × TopicData)) :
    List (Str × ChartData) :=
  topic_dict.filterMap (fun p =>
    let td := p.2
    let has_receive_data := td.receive_counts.any (fun q => decide (q.2 > 0))
    let has_send_data := td.send_counts.any (fun q => decide (q.2 > 0))
    let has_drop_data := td.drop_counts.any (fun q => decide (q.2 > 0))
    if has_receive_data || has_send_data || has_drop_data then
      let lost_data := td.drop_counts
      some (p.1,
        { recv_data := td.receive_counts.map
            (fun q => (q.1, if q.2 > 0 then some q.2 else none)),
          send_data := td.send_counts.map
            (fun q => (q.1, if q.2 > 0 then some q.2 else none)),
          lost_data := lost_data,
          legend :=
            (if has_receive_data then ["接收数据".data] else []) ++
            (if has_send_data then ["发送数据".data] else []) ++
            (if !lost_data.isEmpty then ["丢失数据".data] else []) })
    else none)

/-! ## Specification-side definitions (used to state the claims) -/

/-- The absolute distances from the target to every symbol whose stored
address parses as hex. -/
def sym_dists (symbols : List (Str × MapSymbol)) (target : Int) : List Nat :=
  symbols.filterMap (fun p => (pyIntHex p.2.address).map (fun sa => (target - sa).natAbs))

/-- The value left under key `k` when the pairs are assigned in order
(the last pair with that key wins). -/
def lookupLast {κ α : Type} [DecidableEq κ] : List (κ × α) → κ → Option α
  | [], _ => none
  | (k', v) :: rest, k =>
    match lookupLast rest k with
    | some v' => some v'
    | none => if k' = k then some v else none

/-- The value written at slot `j` by the last sample covering it
(later samples take precedence). -/
def last_cover : List SOAData → Nat → Option Nat
  | [], _ => none
  | d :: rest, j =>
    match last_cover rest j with
    | some v => some v
    | none =>
      if d.base_index ≤ j ∧ j < d.base_index + d.counts.length then
        some (d.counts.getD (j - d.base_index) 0)
      else none

/-- The point one timestamp group contributes to a channel's series for
one slot choice: the group's flat vector of the kind, read at the given
index when the group has samples of the kind and the index is in range. -/
def series_point (g : Str × List SOAData) (idx : Option Nat) (kind : Str) :
    Option (Str × Nat) :=
  let ds := g.2.filter (fun d => d.data_type = kind)
  match idx with
  | none => none
  | some i =>
    if ds.isEmpty then none
    else if i < (build_full_counts ds).length then
      some (g.1, (build_full_counts ds).getD i 0)
    else none

/-- The time series the spec promises a channel for one slot choice. -/
def series_from (groups : List (Str × List SOAData)) (idx : Option Nat)
    (kind : Str) : List (Str × Nat) :=
  groups.filterMap (fun g => series_point g idx kind)

/-- The combined effect of one timestamp group on one channel's
`TopicData` inside `process_soa_data`. -/
def group_step (idxs : List Nat) (g : Str × List SOAData) (td : TopicData) :
    TopicData :=
  let cnt_data := g.2.filter (fun d => d.data_type = "cnt".data)
  let drop_data := g.2.filter (fun d => d.data_type = "drop".data)
  let td :=
    if cnt_data.isEmpty then td
    else append_cnt (build_full_counts cnt_data) g.1 idxs td
  if drop_data.isEmpty then td
  else append_drop (build_full_counts drop_data) g.1 idxs td

/-- The (zero- or one-point) series fragment a slot read contributes:
the flat vector read at the index when it is in range. -/
def slot_point (flat : List Nat) (ts : Str) (idx : Option Nat) :
    List (Str × Nat) :=
  match idx with
  | some i => if i < flat.length then [(ts, flat.getD i 0)] else []
  | none => []

/-- The spec's manifest example `["A", "B", "A"]`. -/
def c4_topics : List Str := ["A".data, "B".data, "A".data]

/-- One timestamp whose count dump fills slots 0..2 with 5, 7, 9. -/
def c4_soa : List SOAData := [⟨"ts".data, 0, [5, 7, 9], "cnt".data, [], 0, []⟩]

/-- Addresses `0x1`, `0x10`, `0x100`, ... — pairwise distinct already
normalized lookup keys (used to drive the cache-growth analysis). -/
def growth_addrs (n : Nat) : List Str :=
  (List.range n).map (fun i => '0' :: 'x' :: '1' :: List.replicate i '0')

/-- The spec's trap-block example: `Func0=0x1000, Func2=0x2000,
Func1=0x3000` in one block. -/
def c3_example_block : Str :=
  "\x7bTRAP-RST\x7d:Func0: 0x1000\n\x7bTRAP-RST\x7d:Func2: 0x2000\n\x7bTRAP-RST\x7d:Func1: 0x3000\n".data

/-- The (address, MapSymbol) assignment a line contributes to `symbols`. -/
def symbol_assign (line : Str) : Option (Str × MapSymbol) :=
  (parse_line_symbol line).map (fun p => (p.1, ⟨p.1, p.2, [], []⟩))

/-- The assignment a line contributes to `functions`. -/
def function_assign (line : Str) : Option (Str × Str) :=
  (parse_line_symbol line).bind
    (fun p => if is_function_symbol p.2 then some p else none)

/-- The assignment a line contributes to `variables`. -/
def variable_assign (line : Str) : Option (Str × Str) :=
  (parse_line_symbol line).bind
    (fun p => if is_function_symbol p.2 then none else some p)

/-- The spec's nearest-match example table: a single symbol at
`0x10000000`. -/
def c2_example_table : MapFileState :=
  parse_tasking_map "|target_sym|0x10000000|".data emptyMapFileState

/-- Overlapping same-kind samples of one timestamp group: bases 0, 3, 2
with 1, 2, 2 values; slot 1 is uncovered, slot 3 is covered by the last
two samples. -/
def c5_example_samples : List SOAData :=
  [⟨"t".data, 0, [1], "cnt".data, [], 0, []⟩,
   ⟨"t".data, 3, [5, 6], "cnt".data, [], 0, []⟩,
   ⟨"t".data, 2, [7, 8], "cnt".data, [], 0, []⟩]

/-- Example channel for the chart-generation claim: one zero and one
positive received value, one zero drop value. -/
def c6_example_td : TopicData :=
  ⟨"A".data, 0, [], [("t1".data, 0), ("t2".data, 5)], [("t1".data, 0)]⟩

def c6_example_dict : List (Str × TopicData) := [("A".data, c6_example_td)]

/-- The chart the example channel produces: the zero received value is a
null point, the zero drop value is a literal zero point. -/
def c6_example_chart : ChartData :=
  ⟨[("t1".data, none), ("t2".data, some 5)], [], [("t1".data, 0)],
   ["接收数据".data, "丢失数据".data]⟩

/-! ## Helper lemmas -/

theorem assocGet_insert {κ α : Type} [DecidableEq κ] (d : List (κ × α)) (k k' : κ) (v : α) :
    assocGet (assocInsert d k v) k' = if k = k' then some v else assocGet d k' := by
  induction d with
  | nil => by_cases h : k = k' <;> simp [assocInsert, assocGet, h]
  | cons hd t ih =>
    obtain ⟨k₀, v₀⟩ := hd
    by_cases h0 : k₀ = k
    · subst h0
      by_cases h1 : k₀ = k' <;> simp [assocInsert, assocGet, h1]
    · by_cases h1 : k₀ = k'
      · subst h1
        have h2 : ¬(k = k₀) := fun hh => h0 hh.symm
        simp [assocInsert, assocGet, h0, h2]
      · simp [assocInsert, assocGet, h0, h1, ih]

theorem assocInsert_length_new {κ α : Type} [DecidableEq κ] (d : List (κ × α)) (k : κ) (v : α)
    (h : assocGet d k = none) : (assocInsert d k v).length = d.length + 1 := by
  induction d with
  | nil => simp [assocInsert]
  | cons hd t ih =>
    obtain ⟨k₀, v₀⟩ := hd
    by_cases h0 : k₀ = k
    · simp [assocGet, h0] at h
    · simp [assocGet, h0] at h
      simp [assocInsert, h0, ih h]

/-- The normalized key under which `find_symbol_by_address` caches a query. -/
def lookupKey (q : Str) : Str := lowerStr (normalizeAddr q)

/-- One miss of `find_symbol_by_address` on a state with no symbols and an
empty range cache: the query's key is cached as "not found" and nothing
else in the three dictionaries changes. -/
theorem find_miss_step (st : MapFileState) (a : Str)
    (hsym : st.symbols = []) (hrange : st.range_cache = [])
    (hmiss : assocGet st.lookup_cache (lookupKey a) = none) :
    (find_symbol_by_address st a).1 = none ∧
    (find_symbol_by_address st a).2.symbols = [] ∧
    (find_symbol_by_address st a).2.range_cache = [] ∧
    (find_symbol_by_address st a).2.lookup_cache =
      assocInsert st.lookup_cache (lookupKey a) none := by
  unfold find_symbol_by_address
  simp only [lookupKey] at hmiss
  simp only [hmiss, hsym, hrange, assocGet]
  cases hp : pyIntHex (normalizeAddr a) with
  | none => simp [lookupKey]
  | some t => simp [scanLoop, lookupKey, hsym, hrange]

/-- Pairwise-distinct lookup keys that miss the cache each add one entry. -/
theorem run_lookups_cache_growth (addrs : List Str) :
    ∀ st : MapFileState, st.symbols = [] → st.range_cache = [] →
    addrs.Pairwise (fun a b => lookupKey a ≠ lookupKey b) →
    (∀ a ∈ addrs, assocGet st.lookup_cache (lookupKey a) = none) →
    (run_lookups addrs st).lookup_cache.length =
      st.lookup_cache.length + addrs.length := by
  induction addrs with
  | nil => intro st _ _ _ _; simp [run_lookups]
  | cons a rest ih =>
    intro st hsym hrange hpair hout
    have hmiss : assocGet st.lookup_cache (lookupKey a) = none :=
      hout a (by simp)
    obtain ⟨-, h2, h3, h4⟩ := find_miss_step st a hsym hrange hmiss
    have hpair' := (List.pairwise_cons.mp hpair).2
    have hhead := (List.pairwise_cons.mp hpair).1
    have hlen : (assocInsert st.lookup_cache (lookupKey a) (none : Option Str)).length =
        st.lookup_cache.length + 1 := assocInsert_length_new _ _ _ hmiss
    have step : run_lookups (a :: rest) st =
        run_lookups rest (find_symbol_by_address st a).2 := by
      simp [run_lookups]
    rw [step, ih _ h2 h3 hpair' ?_]
    · rw [h4, hlen]; simp only [List.length_cons]; omega
    · intro b hb
      rw [h4, assocGet_insert]
      have : lookupKey a ≠ lookupKey b := hhead b hb
      simp [this]
      exact hout b (List.mem_cons_of_mem _ hb)

theorem growth_addrs_key (i : Nat) :
    lookupKey ('0' :: 'x' :: '1' :: List.replicate i '0') =
      '0' :: 'x' :: '1' :: List.replicate i '0' := by
  have h0 : lowerChar '0' = '0' := by decide
  have hx : lowerChar 'x' = 'x' := by decide
  have h1 : lowerChar '1' = '1' := by decide
  have hlow : lowerStr ('0' :: 'x' :: '1' :: List.replicate i '0') =
      '0' :: 'x' :: '1' :: List.replicate i '0' := by
    simp [lowerStr, List.map_replicate, h0, hx, h1]
  have hpre : pyStartswith ('0' :: 'x' :: '1' :: List.replicate i '0') "0x".data = true := by
    show pyStartswith _ ('0' :: 'x' :: []) = true
    simp [pyStartswith]
  unfold lookupKey normalizeAddr
  simp [hlow, hpre]

/-- C8 (code_bug evidence).  `find_symbol_by_address` never invokes
`_cleanup_cache`: after 10001 lookups of pairwise-distinct unmatched
addresses the exact-lookup cache holds 10001 entries, past the configured
maximum of 10000 — no entries were evicted. -/
theorem C8_no_eviction :
    (run_lookups (growth_addrs 10001) emptyMapFileState).lookup_cache.length = 10001 ∧
      10001 > 10000 := by
  constructor
  · have hpair : (growth_addrs 10001).Pairwise (fun a b => lookupKey a ≠ lookupKey b) := by
      unfold growth_addrs
      rw [List.pairwise_map]
      refine (List.pairwise_lt_range 10001).imp ?_
      intro i j hij
      rw [growth_addrs_key, growth_addrs_key]
      intro heq
      have := congrArg List.length heq
      simp [List.length_replicate] at this
      omega
    have hmain := run_lookups_cache_growth (growth_addrs 10001) emptyMapFileState rfl rfl
      hpair (by intro a _; simp [emptyMapFileState, assocGet])
    have hlen : (growth_addrs 10001).length = 10001 := by
      simp [growth_addrs]
    rw [hmain, hlen]
    simp [emptyMapFileState]
  · omega

/-- A cached key is answered straight from the exact-lookup cache. -/
theorem find_cache_hit (st : MapFileState) (q : Str) (v : Option Str)
    (h : assocGet st.lookup_cache (lookupKey q) = some v) :
    (find_symbol_by_address st q).1 = v := by
  unfold lookupKey at h
  unfold find_symbol_by_address
  simp only [h]

/-- C10.  `find_symbol_by_address` total-lookup behaviour: on a state
whose caches and symbol table do not know the queried key, when the
address fails to parse as hex — or parses but the nearest-symbol scan
finds nothing — the call returns `none`, records the key as "not found"
in the exact-lookup cache, and a repeated lookup of the same key again
returns `none` straight from that cache. -/
theorem C10_lookup_total_and_cached (st : MapFileState) (q : Str)
    (h1 : assocGet st.lookup_cache (lookupKey q) = none)
    (h2 : assocGet st.symbols (lookupKey q) = none)
    (h3 : assocGet st.range_cache (lookupKey q) = none)
    (h4 : ∀ t, pyIntHex (normalizeAddr q) = some t →
          (scanLoop st.symbols t (none, none)).2 = none) :
    (find_symbol_by_address st q).1 = none ∧
    assocGet (find_symbol_by_address st q).2.lookup_cache (lookupKey q) = some none ∧
    (find_symbol_by_address (find_symbol_by_address st q).2 q).1 = none := by
  unfold lookupKey at h1 h2 h3
  have hfirst : (find_symbol_by_address st q).1 = none ∧
      (find_symbol_by_address st q).2.lookup_cache =
        assocInsert st.lookup_cache (lowerStr (normalizeAddr q)) none := by
    unfold find_symbol_by_address
    simp only [h1, h2, h3]
    cases hp : pyIntHex (normalizeAddr q) with
    | none => simp
    | some t => simp [h4 t hp]
  obtain ⟨hres, hcache⟩ := hfirst
  have hget : assocGet (find_symbol_by_address st q).2.lookup_cache
      (lowerStr (normalizeAddr q)) = some none := by
    rw [hcache, assocGet_insert]; simp
  refine ⟨hres, by simpa [lookupKey] using hget, ?_⟩
  exact find_cache_hit _ _ _ (by simpa [lookupKey] using hget)

/-- C10 witness: the malformed address `"0xzz"` on a fresh parser. -/
theorem C10_witness :
    assocGet emptyMapFileState.lookup_cache (lookupKey "0xzz".data) = none ∧
    (find_symbol_by_address emptyMapFileState "0xzz".data).1 = none ∧
    (find_symbol_by_address
      (find_symbol_by_address emptyMapFileState "0xzz".data).2 "0xzz".data).1 = none := by
  have hparse : pyIntHex (normalizeAddr "0xzz".data) = none := by decide
  have h4 : ∀ t, pyIntHex (normalizeAddr "0xzz".data) = some t →
      (scanLoop emptyMapFileState.symbols t (none, none)).2 = none := by
    intro t ht; rw [hparse] at ht; cases ht
  refine ⟨by decide, ?_, ?_⟩
  · exact (C10_lookup_total_and_cached emptyMapFileState "0xzz".data
      (by decide) (by decide) (by decide) h4).1
  · exact (C10_lookup_total_and_cached emptyMapFileState "0xzz".data
      (by decide) (by decide) (by decide) h4).2.2

theorem ws_cases (x : Char) (h : isAsciiWs x = true) :
    x = ' ' ∨ x = '\t' ∨ x = '\n' ∨ x = '\r' ∨ x = '\x0b' ∨ x = '\x0c' := by
  simp [isAsciiWs] at h
  tauto

theorem identStart_identChar (x : Char) (h : isIdentStart x = true) :
    isIdentChar x = true := by
  simp [isIdentStart] at h
  rcases h with h | h <;> simp [isIdentChar, h]

theorem identChar_ne (x : Char) (h : isIdentChar x = true) :
    x ≠ '|' ∧ x ≠ '\n' ∧ x ≠ ':' ∧ isAsciiWs x = false := by
  refine ⟨?_, ?_, ?_, ?_⟩
  · intro he; subst he; exact absurd h (by decide)
  · intro he; subst he; exact absurd h (by decide)
  · intro he; subst he; exact absurd h (by decide)
  · cases hws : isAsciiWs x
    · rfl
    · rcases ws_cases x hws with h' | h' | h' | h' | h' | h' <;> subst h' <;>
        exact absurd h (by decide)

theorem identStart_ne_zero (x : Char) (h : isIdentStart x = true) : x ≠ '0' := by
  intro he; subst he; exact absurd h (by decide)

theorem hexChar_ne (x : Char) (h : isHexDigitCh x = true) :
    x ≠ '|' ∧ x ≠ '\n' ∧ isAsciiWs x = false := by
  refine ⟨?_, ?_, ?_⟩
  · intro he; subst he; exact absurd h (by decide)
  · intro he; subst he; exact absurd h (by decide)
  · cases hws : isAsciiWs x
    · rfl
    · rcases ws_cases x hws with h' | h' | h' | h' | h' | h' <;> subst h' <;>
        exact absurd h (by decide)

theorem splitOnChar_of_not_mem (sep : Char) (s : Str)
    (h : ∀ x ∈ s, x ≠ sep) : splitOnChar sep s = [s] := by
  induction s with
  | nil => rfl
  | cons c cs ih =>
    have hc : ¬(c = sep) := h c (by simp)
    rw [splitOnChar, if_neg hc, ih (fun x hx => h x (List.mem_cons_of_mem _ hx))]

theorem splitOnChar_cons_sep (sep : Char) (rest : Str) :
    splitOnChar sep (sep :: rest) = [] :: splitOnChar sep rest := by
  rw [splitOnChar, if_pos rfl]

theorem splitOnChar_append (sep : Char) (xs ys : Str)
    (h : ∀ x ∈ xs, x ≠ sep) :
    splitOnChar sep (xs ++ sep :: ys) = xs :: splitOnChar sep ys := by
  induction xs with
  | nil => simpa using splitOnChar_cons_sep sep ys
  | cons c cs ih =>
    have hc : ¬(c = sep) := h c (by simp)
    rw [List.cons_append, splitOnChar, if_neg hc,
      ih (fun x hx => h x (List.mem_cons_of_mem _ hx))]

theorem dropWhile_of_none (p : Char → Bool) (s : Str)
    (h : ∀ x ∈ s, p x = false) : s.dropWhile p = s := by
  cases s with
  | nil => rfl
  | cons c cs =>
    rw [List.dropWhile_cons, if_neg (by simp [h c (by simp)])]

theorem stripStr_of_no_ws (s : Str) (h : ∀ x ∈ s, isAsciiWs x = false) :
    stripStr s = s := by
  unfold stripStr
  rw [dropWhile_of_none _ _ h,
    dropWhile_of_none _ _ (fun x hx => h x (List.mem_reverse.mp hx)),
    List.reverse_reverse]

theorem pyStartswith_mem (s p : Str) (h : pyStartswith s p = true) :
    ∀ x ∈ p, x ∈ s := by
  induction p generalizing s with
  | nil => intro x hx; cases hx
  | cons b bs ih =>
    intro x hx
    cases s with
    | nil => cases h
    | cons a as =>
      rw [pyStartswith, Bool.and_eq_true] at h
      obtain ⟨hab, hrest⟩ := h
      rcases List.mem_cons.mp hx with hx | hx
      · rw [hx, ← of_decide_eq_true hab]
        exact List.mem_cons_self _ _
      · exact List.mem_cons_of_mem _ (ih as hrest x hx)

theorem pyStartswith_head (a b : Char) (s p : Str)
    (h : pyStartswith (a :: s) (b :: p) = true) : a = b := by
  rw [pyStartswith, Bool.and_eq_true] at h
  exact of_decide_eq_true h.1

theorem matchAddr8_false_head (c : Char) (cs : Str) (h : c ≠ '0') :
    matchAddr8 (c :: cs) = false := by
  unfold matchAddr8
  split
  · next heq =>
    exfalso
    injection heq with h1 _
    exact h h1
  · rfl

theorem matchAddr8_addr (ds : Str) (hds8 : ds.length = 8)
    (hdshex : ds.all isHexDigitCh = true) :
    matchAddr8 ('0' :: 'x' :: ds) = true := by
  have htake : ds.take 8 = ds := List.take_of_length_le (by omega)
  have hdrop : ds.drop 8 = [] := List.drop_eq_nil_of_le (by omega)
  simp [matchAddr8, htake, hdrop, hds8, hdshex]

theorem matchIdentFull_of_ident (c : Char) (cs : Str)
    (hstart : isIdentStart c = true) (hall : cs.all isIdentChar = true) :
    matchIdentFull (c :: cs) = true := by
  have hnolast : ¬((c :: cs).getLast? = some '\n') := by
    intro hl
    have hmem : '\n' ∈ c :: cs := by
      have : '\n' ∈ (c :: cs).getLast? := hl
      obtain ⟨hne, heq⟩ := List.mem_getLast?_eq_getLast this
      rw [heq]
      exact List.getLast_mem hne
    rcases List.mem_cons.mp hmem with hh | hh
    · exact (identChar_ne c (identStart_identChar c hstart)).2.1 hh.symm
    · exact (identChar_ne '\n' (by
        have := List.all_eq_true.mp hall _ hh
        exact this)).2.1 rfl
  unfold matchIdentFull
  rw [if_neg hnolast]
  simp [hstart, hall]

/-- The identifier cannot carry the `mpe:` noise prefix: `:` is not an
identifier character. -/
theorem ident_not_mpe (c : Char) (cs : Str)
    (hstart : isIdentStart c = true) (hall : cs.all isIdentChar = true) :
    pyStartswith (c :: cs) "mpe:".data = false := by
  cases hsw : pyStartswith (c :: cs) "mpe:".data
  · rfl
  · exfalso
    have hcolon : ':' ∈ c :: cs := pyStartswith_mem _ _ hsw ':' (by decide)
    rcases List.mem_cons.mp hcolon with hh | hh
    · exact (identChar_ne c (identStart_identChar c hstart)).2.2.1 hh.symm
    · exact (identChar_ne ':' (List.all_eq_true.mp hall _ hh)).2.2.1 rfl

theorem ident_not_0x (c : Char) (cs : Str) (hstart : isIdentStart c = true) :
    pyStartswith (c :: cs) "0x".data = false := by
  cases hsw : pyStartswith (c :: cs) "0x".data
  · rfl
  · exact absurd (pyStartswith_head c '0' cs _ hsw) (identStart_ne_zero c hstart)

/-- The row scan on the two-field row, identifier first. -/
theorem scanParts_ident_first (c : Char) (cs ds : Str)
    (hstart : isIdentStart c = true) (hall : cs.all isIdentChar = true)
    (hds8 : ds.length = 8) (hdshex : ds.all isHexDigitCh = true) :
    scanParts [] [[], c :: cs, '0' :: 'x' :: ds, []] =
      some (lowerStr ('0' :: 'x' :: ds), c :: cs) := by
  have h1 : scanParts [] [[], c :: cs, '0' :: 'x' :: ds, []] =
      scanParts [[]] [c :: cs, '0' :: 'x' :: ds, []] := rfl
  rw [h1, scanParts]
  rw [if_neg (by simp)]
  rw [matchAddr8_false_head c cs (identStart_ne_zero c hstart)]
  rw [if_neg (by simp)]
  rw [if_pos (by
    simp [matchIdentFull_of_ident c cs hstart hall,
      ident_not_mpe c cs hstart hall])]
  unfold findAddrIn
  rw [List.find?_cons_of_pos _ (matchAddr8_addr ds hds8 hdshex)]
  rfl

/-- The row scan on the two-field row, address first. -/
theorem scanParts_addr_first (c : Char) (cs ds : Str)
    (hstart : isIdentStart c = true) (hall : cs.all isIdentChar = true)
    (hlen : 2 < (c :: cs).length)
    (hds8 : ds.length = 8) (hdshex : ds.all isHexDigitCh = true) :
    scanParts [] [[], '0' :: 'x' :: ds, c :: cs, []] =
      some (lowerStr ('0' :: 'x' :: ds), c :: cs) := by
  have h1 : scanParts [] [[], '0' :: 'x' :: ds, c :: cs, []] =
      scanParts [[]] ['0' :: 'x' :: ds, c :: cs, []] := rfl
  rw [h1, scanParts]
  rw [if_neg (by simp)]
  rw [if_pos (matchAddr8_addr ds hds8 hdshex)]
  have hbefore : findCandidate [([] : Str)] = none := by
    unfold findCandidate
    rw [List.find?_cons_of_neg _ (by simp [candidateOk]), List.find?_nil]
  have hcand : candidateOk (c :: cs) = true := by
    have hlen' : 2 < cs.length + 1 := by simpa using hlen
    unfold candidateOk
    simp [ident_not_0x c cs hstart, ident_not_mpe c cs hstart hall,
      identPrefixOk]
    exact ⟨hlen', hstart⟩
  rw [hbefore]
  unfold findCandidate
  rw [List.find?_cons_of_pos _ hcand]

/-- A row `|f1|f2|` of two pipe-free, whitespace-free fields reaches the
column scan with exactly the columns `["", f1, f2, ""]`. -/
theorem parse_line_of_fields (f1 f2 : Str)
    (hp1 : ∀ x ∈ f1, x ≠ '|') (hp2 : ∀ x ∈ f2, x ≠ '|')
    (hw1 : ∀ x ∈ f1, isAsciiWs x = false)
    (hw2 : ∀ x ∈ f2, isAsciiWs x = false) :
    parse_line_symbol ('|' :: (f1 ++ '|' :: (f2 ++ ['|']))) =
      scanParts [] [[], f1, f2, []] := by
  have hno_ws : ∀ x ∈ '|' :: (f1 ++ '|' :: (f2 ++ ['|'])), isAsciiWs x = false := by
    intro x hx
    rcases List.mem_cons.mp hx with hh | hh
    · rw [hh]; decide
    · rcases List.mem_append.mp hh with hh | hh
      · exact hw1 x hh
      · rcases List.mem_cons.mp hh with hh | hh
        · rw [hh]; decide
        · rcases List.mem_append.mp hh with hh | hh
          · exact hw2 x hh
          · rcases List.mem_singleton.mp hh with hh
            rw [hh]; decide
  unfold parse_line_symbol
  rw [stripStr_of_no_ws _ hno_ws]
  rw [if_neg (by simp [pyStartswith])]
  have hsplit : splitOnChar '|' ('|' :: (f1 ++ '|' :: (f2 ++ ['|']))) =
      [[], f1, f2, []] := by
    rw [splitOnChar_cons_sep, splitOnChar_append '|' f1 _ hp1,
      show f2 ++ ['|'] = f2 ++ '|' :: [] from rfl,
      splitOnChar_append '|' f2 [] hp2]
    rfl
  rw [hsplit]
  have hstrip : List.map stripStr [[], f1, f2, []] = [[], f1, f2, []] := by
    simp only [List.map_cons, List.map_nil]
    rw [stripStr_of_no_ws f1 hw1, stripStr_of_no_ws f2 hw2]
    rfl
  rw [hstrip]
  rw [if_neg (by simp)]

/-- The single two-field row parses to the (lower-cased address,
identifier) pair in either field order. -/
theorem parse_line_two_field (c : Char) (cs ds : Str) (order : Bool)
    (hstart : isIdentStart c = true) (hall : cs.all isIdentChar = true)
    (hlen : 2 < (c :: cs).length)
    (hds8 : ds.length = 8) (hdshex : ds.all isHexDigitCh = true) :
    parse_line_symbol
      ('|' :: (if order then (c :: cs) ++ '|' :: ('0' :: 'x' :: ds) ++ ['|']
               else ('0' :: 'x' :: ds) ++ '|' :: (c :: cs) ++ ['|'])) =
      some (lowerStr ('0' :: 'x' :: ds), c :: cs) := by
  have hid_chars : ∀ x ∈ c :: cs, isIdentChar x = true := by
    intro x hx
    rcases List.mem_cons.mp hx with hh | hh
    · rw [hh]; exact identStart_identChar c hstart
    · exact List.all_eq_true.mp hall _ hh
  have hid_pipe : ∀ x ∈ c :: cs, x ≠ '|' :=
    fun x hx => (identChar_ne x (hid_chars x hx)).1
  have hid_ws : ∀ x ∈ c :: cs, isAsciiWs x = false :=
    fun x hx => (identChar_ne x (hid_chars x hx)).2.2.2
  have haddr_pipe : ∀ x ∈ '0' :: 'x' :: ds, x ≠ '|' := by
    intro x hx
    rcases List.mem_cons.mp hx with hh | hh
    · rw [hh]; decide
    · rcases List.mem_cons.mp hh with hh | hh
      · rw [hh]; decide
      · exact (hexChar_ne x (List.all_eq_true.mp hdshex _ hh)).1
  have haddr_ws : ∀ x ∈ '0' :: 'x' :: ds, isAsciiWs x = false := by
    intro x hx
    rcases List.mem_cons.mp hx with hh | hh
    · rw [hh]; decide
    · rcases List.mem_cons.mp hh with hh | hh
      · rw [hh]; decide
      · exact (hexChar_ne x (List.all_eq_true.mp hdshex _ hh)).2.2
  cases order
  · simp only [ite_false, Bool.false_eq_true]
    rw [show ('0' :: 'x' :: ds) ++ '|' :: (c :: cs) ++ ['|'] =
      ('0' :: 'x' :: ds) ++ '|' :: ((c :: cs) ++ ['|']) from by simp]
    rw [parse_line_of_fields _ _ haddr_pipe hid_pipe haddr_ws hid_ws]
    exact scanParts_addr_first c cs ds hstart hall hlen hds8 hdshex
  · simp only [ite_true]
    rw [show (c :: cs) ++ '|' :: ('0' :: 'x' :: ds) ++ ['|'] =
      (c :: cs) ++ '|' :: (('0' :: 'x' :: ds) ++ ['|']) from by simp]
    rw [parse_line_of_fields _ _ hid_pipe haddr_pipe hid_ws haddr_ws]
    exact scanParts_ident_first c cs ds hstart hall hds8 hdshex

/-- C1 amended.  Round trip on a two-field row: for a pipe-table row
whose non-empty fields are exactly one full identifier (longer than 2
characters) and one exact-width 8-hex-digit address, in either order,
building the table from that single row and looking the address up in
any hex case returns that identifier. -/
theorem C1_amended_round_trip (c : Char) (cs ds q : Str) (order : Bool)
    (hstart : isIdentStart c = true) (hall : cs.all isIdentChar = true)
    (hlen : 2 < (c :: cs).length)
    (hds8 : ds.length = 8) (hdshex : ds.all isHexDigitCh = true)
    (hq : lowerStr q = lowerStr ('0' :: 'x' :: ds)) :
    (find_symbol_by_address
      (parse_tasking_map
        ('|' :: (if order then (c :: cs) ++ '|' :: ('0' :: 'x' :: ds) ++ ['|']
                 else ('0' :: 'x' :: ds) ++ '|' :: (c :: cs) ++ ['|']))
        emptyMapFileState) q).1 = some (c :: cs) := by
  have hid_chars : ∀ x ∈ c :: cs, isIdentChar x = true := by
    intro x hx
    rcases List.mem_cons.mp hx with hh | hh
    · rw [hh]; exact identStart_identChar c hstart
    · exact List.all_eq_true.mp hall _ hh
  set line : Str :=
    '|' :: (if order then (c :: cs) ++ '|' :: ('0' :: 'x' :: ds) ++ ['|']
            else ('0' :: 'x' :: ds) ++ '|' :: (c :: cs) ++ ['|']) with hline
  have hno_nl : ∀ x ∈ line, x ≠ '\n' := by
    intro x hx
    rw [hline] at hx
    rcases List.mem_cons.mp hx with hh | hh
    · rw [hh]; decide
    · have : x ∈ (c :: cs) ∨ x ∈ ('0' :: 'x' :: ds) ∨ x = '|' := by
        cases order <;> simp at hh ⊢ <;> tauto
      rcases this with h' | h' | h'
      · exact (identChar_ne x (hid_chars x h')).2.1
      · rcases List.mem_cons.mp h' with h'' | h''
        · rw [h'']; decide
        · rcases List.mem_cons.mp h'' with h3 | h3
          · rw [h3]; decide
          · exact (hexChar_ne x (List.all_eq_true.mp hdshex _ h3)).2.1
      · rw [h']; decide
  have hsingle : splitOnChar '\n' line = [line] :=
    splitOnChar_of_not_mem '\n' line hno_nl
  have hparsed := parse_line_two_field c cs ds order hstart hall hlen hds8 hdshex
  have htable : parse_tasking_map line emptyMapFileState =
      recordSymbol emptyMapFileState (lowerStr ('0' :: 'x' :: ds)) (c :: cs) := by
    unfold parse_tasking_map
    rw [hsingle]
    simp only [List.foldl_cons, List.foldl_nil]
    unfold parseMapLine
    rw [hline, hparsed]
  rw [htable]
  have hsym : (recordSymbol emptyMapFileState (lowerStr ('0' :: 'x' :: ds))
      (c :: cs)).symbols = [(lowerStr ('0' :: 'x' :: ds),
        ⟨lowerStr ('0' :: 'x' :: ds), c :: cs, [], []⟩)] := by
    unfold recordSymbol
    by_cases hf : is_function_symbol (c :: cs) <;> simp [hf, assocInsert]
  have hcaches : (recordSymbol emptyMapFileState (lowerStr ('0' :: 'x' :: ds))
      (c :: cs)).lookup_cache = [] := by
    unfold recordSymbol
    by_cases hf : is_function_symbol (c :: cs) <;> simp [hf, emptyMapFileState]
  have hkey : lowerStr (normalizeAddr q) = lowerStr ('0' :: 'x' :: ds) := by
    unfold normalizeAddr
    rw [hq]
    rw [if_pos (by simp [lowerStr, pyStartswith, lowerChar])]
    exact hq
  unfold find_symbol_by_address
  rw [hcaches, hsym]
  simp only [assocGet, hkey]
  simp

/-- C1 witness for the amended round trip: row `|foo_bar|0xAABBCCDD|`
(and the reversed layout), looked up as `0XaAbBcCdD`. -/
theorem C1_witness :
    isIdentStart 'f' = true ∧
    "oo_bar".data.all isIdentChar = true ∧
    lowerStr "0XaAbBcCdD".data = lowerStr ('0' :: 'x' :: "AABBCCDD".data) ∧
    (find_symbol_by_address
      (parse_tasking_map
        ('|' :: (('f' :: "oo_bar".data) ++ '|' :: ('0' :: 'x' :: "AABBCCDD".data) ++ ['|']))
        emptyMapFileState) "0XaAbBcCdD".data).1 = some "foo_bar".data ∧
    (find_symbol_by_address
      (parse_tasking_map
        ('|' :: (('0' :: 'x' :: "AABBCCDD".data) ++ '|' :: ('f' :: "oo_bar".data) ++ ['|']))
        emptyMapFileState) "0XaAbBcCdD".data).1 = some "foo_bar".data := by
  refine ⟨by decide, by decide, by decide, ?_, ?_⟩
  · have h := C1_amended_round_trip 'f' "oo_bar".data "AABBCCDD".data
      "0XaAbBcCdD".data true (by decide) (by decide) (by decide) (by decide)
      (by decide) (by decide)
    simpa using h
  · have h := C1_amended_round_trip 'f' "oo_bar".data "AABBCCDD".data
      "0XaAbBcCdD".data false (by decide) (by decide) (by decide) (by decide)
      (by decide) (by decide)
    simpa using h

/-- C1 counterexample: the row `|xy|foo_bar|0xAABBCCDD|` contains the
exact-width address `0xAABBCCDD` and the identifier `foo_bar` (longer
than 2 characters, no noise prefix), yet the reverse-mapping branch
captures the 2-character column `xy` first, so the lookup returns `xy`,
not `foo_bar`. -/
theorem C1_counterexample :
    (find_symbol_by_address
      (parse_tasking_map "|xy|foo_bar|0xAABBCCDD|".data emptyMapFileState)
      "0xAABBCCDD".data).1 = some "xy".data ∧
    "xy".data ≠ "foo_bar".data := by decide

theorem assocGet_foldl_insert {κ α : Type} [DecidableEq κ]
    (ms : List (κ × α)) :
    ∀ (d : List (κ × α)) (k : κ),
      assocGet (ms.foldl (fun d p => assocInsert d p.1 p.2) d) k =
        match lookupLast ms k with
        | some v => some v
        | none => assocGet d k := by
  induction ms with
  | nil => intro d k; simp [lookupLast]
  | cons p rest ih =>
    intro d k
    obtain ⟨n, a⟩ := p
    simp only [List.foldl_cons, ih, lookupLast]
    cases lookupLast rest k with
    | some v => simp
    | none =>
      simp only [assocGet_insert]
      by_cases hk : n = k <;> simp [hk]

theorem assocGet_build_func_dict (ms : List (Nat × Str)) (k : Nat) :
    assocGet (build_func_dict ms) k = lookupLast ms k := by
  unfold build_func_dict
  rw [assocGet_foldl_insert]
  cases lookupLast ms k <;> simp [assocGet]

theorem assocGet_isSome_iff_mem {κ α : Type} [DecidableEq κ]
    (d : List (κ × α)) (k : κ) :
    (assocGet d k).isSome ↔ k ∈ d.map Prod.fst := by
  induction d with
  | nil => simp [assocGet]
  | cons p rest ih =>
    obtain ⟨k', v⟩ := p
    by_cases hk : k' = k
    · subst hk; simp [assocGet]
    · simp [assocGet, hk, ih, Ne.symm hk]

theorem lookupLast_isSome_iff_mem {κ α : Type} [DecidableEq κ]
    (ms : List (κ × α)) (k : κ) :
    (lookupLast ms k).isSome ↔ k ∈ ms.map Prod.fst := by
  induction ms with
  | nil => simp [lookupLast]
  | cons p rest ih =>
    obtain ⟨k', v⟩ := p
    simp only [lookupLast, List.map_cons, List.mem_cons]
    cases h : lookupLast rest k with
    | some v' => simp [h] at ih; simp [ih]
    | none =>
      simp [h] at ih
      by_cases hk : k' = k <;> simp [hk, ih, Ne.symm, eq_comm]

theorem foldl_max_mem (ks : List Nat) : ∀ k : Nat, ks.foldl max k ∈ k :: ks := by
  induction ks with
  | nil => intro k; simp
  | cons a rest ih =>
    intro k
    simp only [List.foldl_cons]
    have := ih (max k a)
    rcases List.mem_cons.mp this with h | h
    · rw [h]
      rcases max_choice k a with hm | hm <;> rw [hm] <;> simp
    · simp [h]

theorem foldl_max_le (ks : List Nat) : ∀ k x : Nat, x ∈ k :: ks → x ≤ ks.foldl max k := by
  induction ks with
  | nil => intro k x hx; simp at hx; simp [hx]
  | cons a rest ih =>
    intro k x hx
    simp only [List.foldl_cons]
    rcases List.mem_cons.mp hx with h | h
    · subst h
      exact le_trans (Nat.le_max_left x a) (ih (max x a) _ (by simp))
    · rcases List.mem_cons.mp h with h' | h'
      · subst h'
        exact le_trans (Nat.le_max_right k x) (ih (max k x) _ (by simp))
      · exact ih (max k a) x (by simp [h'])

/-- C3.  Max-index candidate selection: whenever `_parse_trap_block`
extracts a non-empty set of `FuncN` entries from a trap block, the
recorded `(max_func_num, max_func_address)` pair consists of the largest
extracted index `m` and the address assigned to `m` by the last extracted
entry with that index — the selection depends only on the indices, never
on the magnitude of the addresses. -/
theorem C3_max_func_selection (trap_block : Str)
    (hne : func_addresses_of (func_findall trap_block) ≠ []) :
    ∃ m a, parse_trap_block_max_func trap_block = some (m, a) ∧
      m ∈ (func_addresses_of (func_findall trap_block)).map Prod.fst ∧
      (∀ p ∈ func_addresses_of (func_findall trap_block), p.1 ≤ m) ∧
      lookupLast (func_addresses_of (func_findall trap_block)) m = some a := by
  set ms := func_addresses_of (func_findall trap_block) with hms
  have hkeys : ∀ k, k ∈ (build_func_dict ms).map Prod.fst ↔ k ∈ ms.map Prod.fst := by
    intro k
    rw [← assocGet_isSome_iff_mem, assocGet_build_func_dict, lookupLast_isSome_iff_mem]
  cases hK : (build_func_dict ms).map Prod.fst with
  | nil =>
    exfalso
    obtain ⟨p, hp⟩ := List.exists_mem_of_ne_nil ms hne
    have : p.1 ∈ ms.map Prod.fst := List.mem_map_of_mem _ hp
    rw [← hkeys, hK] at this
    exact absurd this (List.not_mem_nil _)
  | cons k ks =>
    set m := ks.foldl max k with hm
    have hmem : m ∈ (build_func_dict ms).map Prod.fst := by
      rw [hK]; exact foldl_max_mem ks k
    have hmem' : m ∈ ms.map Prod.fst := (hkeys m).mp hmem
    have hsome : (lookupLast ms m).isSome := (lookupLast_isSome_iff_mem ms m).mpr hmem'
    obtain ⟨a, ha⟩ := Option.isSome_iff_exists.mp hsome
    refine ⟨m, a, ?_, hmem', ?_, ha⟩
    · unfold parse_trap_block_max_func max_func_selection
      rw [← hms, hK]
      have hget : assocGet (build_func_dict ms) m = some a := by
        rw [assocGet_build_func_dict]; exact ha
      simp [← hm, hget]
    · intro p hp
      have : p.1 ∈ (build_func_dict ms).map Prod.fst :=
        (hkeys p.1).mpr (List.mem_map_of_mem _ hp)
      rw [hK] at this
      exact foldl_max_le ks k p.1 this

/-- C3 witness: the spec's example block `Func0=0x1000, Func2=0x2000,
Func1=0x3000` selects index 2 and address `0x2000`. -/
theorem C3_witness :
    func_addresses_of (func_findall c3_example_block) ≠ [] ∧
    parse_trap_block_max_func c3_example_block = some (2, "0x2000".data) := by
  refine ⟨by decide, ?_⟩
  obtain ⟨m, a, hsel, hmem, hmax, hlast⟩ :=
    C3_max_func_selection c3_example_block (by decide)
  have h2 : (2 : Nat) ≤ m := hmax (2, "0x2000".data) (by decide)
  have hmap : (func_addresses_of (func_findall c3_example_block)).map Prod.fst
      = [0, 2, 1] := by decide
  rw [hmap] at hmem
  have hm2 : m = 2 := by
    have : m = 0 ∨ m = 2 ∨ m = 1 := by simpa using hmem
    omega
  subst hm2
  have hl : lookupLast (func_addresses_of (func_findall c3_example_block)) 2
      = some "0x2000".data := by decide
  rw [hl] at hlast
  rw [hsel, ← Option.some_inj.mp hlast]

/-- Invariants of the nearest-symbol scan: (1) any distance below the
threshold forces the final minimum at or below it; (2) a seeded minimum
can only improve; (3) the scan either returns its accumulator unchanged
or returns the distance and name of one of the scanned symbols, below
the threshold. -/
theorem scanLoop_props (target : Int) (syms : List (Str × MapSymbol)) :
    ∀ (m : Option Nat) (b : Option Str),
    (∀ d ∈ sym_dists syms target, d < 4096 →
        ∃ m', (scanLoop syms target (m, b)).1 = some m' ∧ m' ≤ d) ∧
    (∀ m₀, m = some m₀ →
        ∃ m', (scanLoop syms target (m, b)).1 = some m' ∧ m' ≤ m₀) ∧
    (scanLoop syms target (m, b) = (m, b) ∨
      ∃ p ∈ syms, ∃ sa, pyIntHex p.2.address = some sa ∧
        (scanLoop syms target (m, b)).1 = some ((target - sa).natAbs) ∧
        (scanLoop syms target (m, b)).2 = some p.2.name ∧
        (target - sa).natAbs < 4096) := by
  induction syms with
  | nil =>
    intro m b
    refine ⟨?_, ?_, Or.inl rfl⟩
    · intro d hd
      simp [sym_dists] at hd
    · intro m₀ hm
      exact ⟨m₀, by simp [scanLoop, hm], le_refl m₀⟩
  | cons p rest ih =>
    intro m b
    obtain ⟨key, sym⟩ := p
    cases hpa : pyIntHex sym.address with
    | none =>
      have hdists : sym_dists ((key, sym) :: rest) target = sym_dists rest target := by
        simp [sym_dists, List.filterMap_cons, hpa]
      have hstep : scanLoop ((key, sym) :: rest) target (m, b) =
          scanLoop rest target (m, b) := by
        simp [scanLoop, hpa]
      obtain ⟨ih1, ih2, ih3⟩ := ih m b
      refine ⟨?_, ?_, ?_⟩
      · intro d hd; rw [hdists] at hd; rw [hstep]; exact ih1 d hd
      · intro m₀ hm; rw [hstep]; exact ih2 m₀ hm
      · rw [hstep]
        rcases ih3 with h | ⟨p', hp', rest'⟩
        · exact Or.inl h
        · exact Or.inr ⟨p', List.mem_cons_of_mem _ hp', rest'⟩
    | some sa =>
      have hdists : sym_dists ((key, sym) :: rest) target =
          (target - sa).natAbs :: sym_dists rest target := by
        simp [sym_dists, List.filterMap_cons, hpa]
      set d0 := (target - sa).natAbs with hd0
      by_cases hcond : ((match m with
          | none => true
          | some m₀ => decide (d0 < m₀)) && decide (d0 < 4096)) = true
      · have hstep : scanLoop ((key, sym) :: rest) target (m, b) =
            scanLoop rest target (some d0, some sym.name) := by
          simp only [scanLoop, hpa]
          rw [if_pos hcond]
        have hd0lt : d0 < 4096 := by
          have := (Bool.and_eq_true _ _).mp hcond
          exact of_decide_eq_true this.2
        obtain ⟨ih1, ih2, ih3⟩ := ih (some d0) (some sym.name)
        refine ⟨?_, ?_, ?_⟩
        · intro d hd _
          rw [hstep]
          rw [hdists] at hd
          rcases List.mem_cons.mp hd with hh | hh
          · obtain ⟨m', hm', hle⟩ := ih2 d0 rfl
            exact ⟨m', hm', by rw [hh]; exact hle⟩
          · by_cases hdlt : d < 4096
            · exact ih1 d hh hdlt
            · obtain ⟨m', hm', hle⟩ := ih2 d0 rfl
              exact ⟨m', hm', by omega⟩
        · intro m₀ hm
          rw [hstep]
          obtain ⟨m', hm', hle⟩ := ih2 d0 rfl
          have hlt : d0 < m₀ := by
            have := (Bool.and_eq_true _ _).mp hcond
            rw [hm] at this
            exact of_decide_eq_true this.1
          exact ⟨m', hm', by omega⟩
        · rw [hstep]
          rcases ih3 with h | ⟨p', hp', sa', hsa', h1, h2, h3⟩
          · refine Or.inr ⟨(key, sym), List.mem_cons_self _ _, sa, hpa, ?_, ?_, hd0lt⟩
            · rw [h]
            · rw [h]
          · exact Or.inr ⟨p', List.mem_cons_of_mem _ hp', sa', hsa', h1, h2, h3⟩
      · have hstep : scanLoop ((key, sym) :: rest) target (m, b) =
            scanLoop rest target (m, b) := by
          simp only [scanLoop, hpa]
          rw [if_neg hcond]
        obtain ⟨ih1, ih2, ih3⟩ := ih m b
        refine ⟨?_, ?_, ?_⟩
        · intro d hd hdlt
          rw [hstep]
          rw [hdists] at hd
          rcases List.mem_cons.mp hd with hh | hh
          · rw [hh] at hdlt ⊢
            have hcase : ∃ m₀, m = some m₀ ∧ m₀ ≤ d0 := by
              cases m with
              | none => exact absurd (by simp [hdlt]) hcond
              | some m₀ =>
                refine ⟨m₀, rfl, ?_⟩
                by_contra hgt
                push_neg at hgt
                exact hcond (by simp [hgt, hdlt])
            obtain ⟨m₀, hm, hle⟩ := hcase
            obtain ⟨m', hm', hle'⟩ := ih2 m₀ hm
            exact ⟨m', hm', by omega⟩
          · exact ih1 d hh hdlt
        · intro m₀ hm
          rw [hstep]
          exact ih2 m₀ hm
        · rw [hstep]
          rcases ih3 with h | ⟨p', hp', rest'⟩
          · exact Or.inl h
          · exact Or.inr ⟨p', List.mem_cons_of_mem _ hp', rest'⟩

/-- C2.  Nearest-match threshold is strict: on a freshly built table
(empty caches) with no exact match for the queried address, the lookup
returns the name of a symbol at minimum absolute distance when some
symbol lies strictly within 0x1000, and returns `none` when every
distance is at least 0x1000. -/
theorem C2_nearest_threshold (st : MapFileState) (q : Str) (t : Int)
    (hc1 : st.lookup_cache = []) (hc2 : st.range_cache = [])
    (hexact : assocGet st.symbols (lookupKey q) = none)
    (hparse : pyIntHex (normalizeAddr q) = some t) :
    ((∀ d ∈ sym_dists st.symbols t, 4096 ≤ d) →
      (find_symbol_by_address st q).1 = none) ∧
    ((∃ d ∈ sym_dists st.symbols t, d < 4096) →
      ∃ p ∈ st.symbols, ∃ sa, pyIntHex p.2.address = some sa ∧
        (find_symbol_by_address st q).1 = some p.2.name ∧
        (∀ d ∈ sym_dists st.symbols t, (t - sa).natAbs ≤ d)) := by
  unfold lookupKey at hexact
  have hfind : ∀ r, (scanLoop st.symbols t (none, none)).2 = r →
      (find_symbol_by_address st q).1 = (match r with
        | some nm => some nm
        | none => none) := by
    intro r hr
    unfold find_symbol_by_address
    simp only [hc1, hc2, assocGet, hexact, hparse, hr]
    cases r <;> simp
  obtain ⟨p1, p2, p3⟩ := scanLoop_props t st.symbols none none
  constructor
  · intro hall
    rcases p3 with h | ⟨p, hp, sa, hsa, h1, h2, h3⟩
    · have : (scanLoop st.symbols t (none, none)).2 = none := by rw [h]
      rw [hfind none this]
    · exfalso
      have hmem : (t - sa).natAbs ∈ sym_dists st.symbols t := by
        refine List.mem_filterMap.mpr ⟨p, hp, ?_⟩
        rw [hsa]; rfl
      have := hall _ hmem
      omega
  · rintro ⟨d, hd, hdlt⟩
    obtain ⟨m', hm', hle⟩ := p1 d hd hdlt
    rcases p3 with h | ⟨p, hp, sa, hsa, h1, h2, h3⟩
    · rw [h] at hm'
      cases hm'
    · refine ⟨p, hp, sa, hsa, ?_, ?_⟩
      · rw [hfind _ h2]
      · intro d' hd'
        by_cases hlt : d' < 4096
        · obtain ⟨m'', hm'', hle''⟩ := p1 d' hd' hlt
          rw [h1] at hm''
          have : m'' = (t - sa).natAbs := by
            injection hm'' with hh
            exact hh.symm
          omega
        · omega

/-- C2 witness: the single symbol at `0x10000000`; a lookup at
`0x10000FFF` (distance 0xFFF) returns it, a lookup at `0x10001000`
(distance 0x1000) returns none. -/
theorem C2_witness :
    c2_example_table.lookup_cache = [] ∧
    pyIntHex (normalizeAddr "0x10000FFF".data) = some 268439551 ∧
    (((∀ d ∈ sym_dists c2_example_table.symbols 268439551, 4096 ≤ d) →
        (find_symbol_by_address c2_example_table "0x10000FFF".data).1 = none) ∧
      ((∃ d ∈ sym_dists c2_example_table.symbols 268439551, d < 4096) →
        ∃ p ∈ c2_example_table.symbols, ∃ sa, pyIntHex p.2.address = some sa ∧
          (find_symbol_by_address c2_example_table "0x10000FFF".data).1 = some p.2.name ∧
          (∀ d ∈ sym_dists c2_example_table.symbols 268439551,
            ((268439551 : Int) - sa).natAbs ≤ d))) ∧
    (find_symbol_by_address c2_example_table "0x10000FFF".data).1 = some "target_sym".data ∧
    (find_symbol_by_address c2_example_table "0x10001000".data).1 = none := by
  refine ⟨by decide, by decide, ?_, by decide, by decide⟩
  exact C2_nearest_threshold c2_example_table "0x10000FFF".data 268439551
    (by decide) (by decide) (by decide) (by decide)

/-- C7.  Diagnosis synthesis: after `_generate_restart_reason` the
diagnosis is always present; the four resolution combinations produce
the four documented message shapes (both resolved / function only /
variable only / neither), and at representative resolved names the four
shapes are pairwise distinct; the neither-case falls back to a
description built from `rest_type` and the addresses, or to the
unknown-reason message when nothing is present. -/
theorem C7_diagnosis_coverage (ti : TrapInfo) :
    ((generate_restart_reason ti).restart_reason).isSome = true ∧
    (generate_restart_reason ti).restart_reason = some (
      if pyTruthyStr ti.function_name && pyTruthyStr ti.parameter_name then
        "重启原因：【".data ++ pyOrStr ti.function_name "未知函数".data ++
          "】访问【".data ++ pyOrStr ti.parameter_name "未知参数".data ++
          "】异常进入Trap".data
      else if pyTruthyStr ti.function_name then
        "重启原因：【".data ++ pyOrStr ti.function_name "未知函数".data ++
          "】访问内存异常进入Trap".data
      else if pyTruthyStr ti.parameter_name then
        "重启原因：未知函数访问【".data ++ pyOrStr ti.parameter_name "未知参数".data ++
          "】异常进入Trap".data
      else
        let reason_parts : List Str :=
          (if pyTruthyStr ti.rest_type then
            ["重启类型: ".data ++ ti.rest_type.getD []] else []) ++
          (if pyTruthyStr ti.deadd_address || pyTruthyStr ti.max_func_address then
            ["异常进入TRAP".data] else [])
        if reason_parts.isEmpty then "未知重启原因".data else joinSpace reason_parts) ∧
    ((generate_restart_reason
        { function_name := some "FuncA".data, parameter_name := some "VarB".data }).restart_reason ≠
      (generate_restart_reason { function_name := some "FuncA".data }).restart_reason ∧
     (generate_restart_reason
        { function_name := some "FuncA".data, parameter_name := some "VarB".data }).restart_reason ≠
      (generate_restart_reason { parameter_name := some "VarB".data }).restart_reason ∧
     (generate_restart_reason
        { function_name := some "FuncA".data, parameter_name := some "VarB".data }).restart_reason ≠
      (generate_restart_reason
        { rest_type := some "3".data, deadd_address := some "0xD0000000".data }).restart_reason ∧
     (generate_restart_reason { function_name := some "FuncA".data }).restart_reason ≠
      (generate_restart_reason { parameter_name := some "VarB".data }).restart_reason ∧
     (generate_restart_reason { function_name := some "FuncA".data }).restart_reason ≠
      (generate_restart_reason
        { rest_type := some "3".data, deadd_address := some "0xD0000000".data }).restart_reason ∧
     (generate_restart_reason { parameter_name := some "VarB".data }).restart_reason ≠
      (generate_restart_reason
        { rest_type := some "3".data, deadd_address := some "0xD0000000".data }).restart_reason) ∧
    (generate_restart_reason {}).restart_reason = some "未知重启原因".data := by
  refine ⟨?_, rfl, by decide, by decide⟩
  simp [generate_restart_reason]

/-- C6.  Zero-vs-gap asymmetry: every chart entry's receive and send
series replace value 0 by a null point while keeping positive values,
and the drop series keeps every value, zero included, as a literal data
point. -/
theorem C6_zero_gap (topic_dict : List (Str × TopicData)) (nm : Str) (cd : ChartData)
    (h : (nm, cd) ∈ generate_topic_charts_data topic_dict) :
    ∃ td, (nm, td) ∈ topic_dict ∧
      cd.recv_data = td.receive_counts.map
        (fun q => (q.1, if q.2 > 0 then some q.2 else none)) ∧
      cd.send_data = td.send_counts.map
        (fun q => (q.1, if q.2 > 0 then some q.2 else none)) ∧
      cd.lost_data = td.drop_counts ∧
      (∀ i ts, td.receive_counts.get? i = some (ts, 0) →
        cd.recv_data.get? i = some (ts, none)) ∧
      (∀ i ts, td.send_counts.get? i = some (ts, 0) →
        cd.send_data.get? i = some (ts, none)) ∧
      (∀ i ts, td.drop_counts.get? i = some (ts, 0) →
        cd.lost_data.get? i = some (ts, 0)) := by
  obtain ⟨⟨nm', td⟩, hmem, hf⟩ := List.mem_filterMap.mp h
  simp only [generate_topic_charts_data] at hf
  by_cases hc : (td.receive_counts.any (fun q => decide (q.2 > 0)) ||
      td.send_counts.any (fun q => decide (q.2 > 0)) ||
      td.drop_counts.any (fun q => decide (q.2 > 0))) = true
  · rw [if_pos hc] at hf
    obtain ⟨hnm, hcd⟩ := Prod.mk.injEq .. ▸ (Option.some_inj.mp hf)
    subst hnm
    subst hcd
    refine ⟨td, hmem, rfl, rfl, rfl, ?_, ?_, ?_⟩
    · intro i ts hi
      show (td.receive_counts.map
        (fun q => (q.1, if q.2 > 0 then some q.2 else none))).get? i = _
      rw [List.get?_map, hi]
      rfl
    · intro i ts hi
      show (td.send_counts.map
        (fun q => (q.1, if q.2 > 0 then some q.2 else none))).get? i = _
      rw [List.get?_map, hi]
      rfl
    · intro i ts hi
      exact hi
  · rw [if_neg hc] at hf
    cases hf

/-- C6 witness: the example channel with a zero received value and a
zero drop value at `t1`. -/
theorem C6_witness :
    ("A".data, c6_example_chart) ∈ generate_topic_charts_data c6_example_dict ∧
    (∃ td, ("A".data, td) ∈ c6_example_dict ∧
      c6_example_chart.recv_data = td.receive_counts.map
        (fun q => (q.1, if q.2 > 0 then some q.2 else none)) ∧
      c6_example_chart.send_data = td.send_counts.map
        (fun q => (q.1, if q.2 > 0 then some q.2 else none)) ∧
      c6_example_chart.lost_data = td.drop_counts ∧
      (∀ i ts, td.receive_counts.get? i = some (ts, 0) →
        c6_example_chart.recv_data.get? i = some (ts, none)) ∧
      (∀ i ts, td.send_counts.get? i = some (ts, 0) →
        c6_example_chart.send_data.get? i = some (ts, none)) ∧
      (∀ i ts, td.drop_counts.get? i = some (ts, 0) →
        c6_example_chart.lost_data.get? i = some (ts, 0))) ∧
    c6_example_chart.recv_data.get? 0 = some ("t1".data, none) ∧
    c6_example_chart.lost_data.get? 0 = some ("t1".data, 0) := by
  refine ⟨by decide, ?_, by decide, by decide⟩
  exact C6_zero_gap c6_example_dict "A".data c6_example_chart (by decide)

theorem apply_to_topic_get_same (d : List (Str × TopicData)) (n : Str)
    (f : TopicData → TopicData) :
    assocGet (apply_to_topic d n f) n = (assocGet d n).map f := by
  induction d with
  | nil => rfl
  | cons p rest ih =>
    obtain ⟨k, td⟩ := p
    by_cases hk : k = n
    · simp [apply_to_topic, assocGet, hk]
    · simp [apply_to_topic, assocGet, hk, ih]

theorem apply_to_topic_get_other (d : List (Str × TopicData)) (n n' : Str)
    (f : TopicData → TopicData) (h : n' ≠ n) :
    assocGet (apply_to_topic d n f) n' = assocGet d n' := by
  induction d with
  | nil => rfl
  | cons p rest ih =>
    obtain ⟨k, td⟩ := p
    by_cases hk : k = n
    · subst hk
      simp [apply_to_topic, assocGet, Ne.symm h]
    · by_cases hk' : k = n'
      · simp [apply_to_topic, assocGet, hk, hk', h]
      · simp [apply_to_topic, assocGet, hk, hk', ih]

theorem assocGet_eq_none_of_not_mem {κ α : Type} [DecidableEq κ]
    (d : List (κ × α)) (k : κ) (h : k ∉ d.map Prod.fst) :
    assocGet d k = none := by
  cases hg : assocGet d k with
  | none => rfl
  | some v =>
    exact absurd ((assocGet_isSome_iff_mem d k).mp (by rw [hg]; rfl)) h

/-- Folding the per-channel update over a duplicate-free index map
touches exactly the named channel's entry. -/
theorem fold_apply_get (F : List Nat → TopicData → TopicData)
    (m : List (Str × List Nat)) :
    m.Pairwise (fun p q => p.1 ≠ q.1) →
    ∀ (dict : List (Str × TopicData)) (name : Str),
      assocGet (m.foldl (fun dc p => apply_to_topic dc p.1 (F p.2)) dict) name =
        match assocGet m name with
        | none => assocGet dict name
        | some ix => (assocGet dict name).map (F ix) := by
  induction m with
  | nil => intro _ dict name; simp [assocGet]
  | cons p rest ih =>
    intro hm dict name
    obtain ⟨nm, ix⟩ := p
    obtain ⟨hhead, htail⟩ := List.pairwise_cons.mp hm
    simp only [List.foldl_cons]
    rw [ih htail]
    by_cases hk : nm = name
    · subst hk
      have hrest : assocGet rest nm = none := by
        apply assocGet_eq_none_of_not_mem
        intro hmem
        obtain ⟨q, hq, hfst⟩ := List.mem_map.mp hmem
        exact hhead q hq hfst.symm
      rw [hrest]
      simp [assocGet, apply_to_topic_get_same]
    · have hcons : assocGet ((nm, ix) :: rest) name = assocGet rest name := by
        simp [assocGet, hk]
      rw [hcons, apply_to_topic_get_other _ _ _ _ (fun hh => hk hh.symm)]

theorem append_cnt_fields (flat : List Nat) (ts : Str) (idxs : List Nat)
    (td : TopicData) :
    (append_cnt flat ts idxs td).receive_counts =
      td.receive_counts ++ slot_point flat ts idxs.head? ∧
    (append_cnt flat ts idxs td).send_counts =
      td.send_counts ++ slot_point flat ts (idxs.get? 1) ∧
    (append_cnt flat ts idxs td).drop_counts = td.drop_counts ∧
    (append_cnt flat ts idxs td).topic_name = td.topic_name ∧
    (append_cnt flat ts idxs td).topic_index = td.topic_index := by
  match idxs with
  | [] => simp [append_cnt, slot_point]
  | [i0] =>
    by_cases h0 : i0 < flat.length <;>
      simp [append_cnt, slot_point, h0, List.get?]
  | i0 :: i1 :: rest =>
    by_cases h0 : i0 < flat.length <;> by_cases h1 : i1 < flat.length <;>
      simp [append_cnt, slot_point, h0, h1, List.get?]

theorem append_drop_fields (flat : List Nat) (ts : Str) (idxs : List Nat)
    (td : TopicData) :
    (append_drop flat ts idxs td).drop_counts =
      td.drop_counts ++ slot_point flat ts idxs.head? ∧
    (append_drop flat ts idxs td).receive_counts = td.receive_counts ∧
    (append_drop flat ts idxs td).send_counts = td.send_counts ∧
    (append_drop flat ts idxs td).topic_name = td.topic_name ∧
    (append_drop flat ts idxs td).topic_index = td.topic_index := by
  match idxs with
  | [] => simp [append_drop, slot_point]
  | i0 :: rest =>
    by_cases h0 : i0 < flat.length <;> simp [append_drop, slot_point, h0]

theorem series_point_toList (g : Str × List SOAData) (idx : Option Nat)
    (kind : Str) :
    (series_point g idx kind).toList =
      if (g.2.filter (fun d => d.data_type = kind)).isEmpty then []
      else slot_point (build_full_counts (g.2.filter (fun d => d.data_type = kind)))
        g.1 idx := by
  cases idx with
  | none => cases h : (g.2.filter (fun d => d.data_type = kind)).isEmpty <;>
      simp [series_point, slot_point, h]
  | some i =>
    by_cases h : (g.2.filter (fun d => d.data_type = kind)).isEmpty
    · simp [series_point, h]
    · by_cases hb : i <
        (build_full_counts (g.2.filter (fun d => d.data_type = kind))).length <;>
        simp [series_point, slot_point, h, hb]

theorem group_step_fields (idxs : List Nat) (g : Str × List SOAData)
    (td : TopicData) :
    (group_step idxs g td).receive_counts =
      td.receive_counts ++ (series_point g idxs.head? "cnt".data).toList ∧
    (group_step idxs g td).send_counts =
      td.send_counts ++ (series_point g (idxs.get? 1) "cnt".data).toList ∧
    (group_step idxs g td).drop_counts =
      td.drop_counts ++ (series_point g idxs.head? "drop".data).toList ∧
    (group_step idxs g td).topic_name = td.topic_name ∧
    (group_step idxs g td).topic_index = td.topic_index := by
  unfold group_step
  by_cases hc : (g.2.filter (fun d => d.data_type = "cnt".data)).isEmpty <;>
    by_cases hd : (g.2.filter (fun d => d.data_type = "drop".data)).isEmpty
  · simp [hc, hd, series_point_toList]
  · obtain ⟨d1, d2, d3, d4, d5⟩ :=
      append_drop_fields (build_full_counts (g.2.filter (fun d => d.data_type = "drop".data)))
        g.1 idxs td
    simp [hc, hd, series_point_toList, d1, d2, d3, d4, d5]
  · obtain ⟨c1, c2, c3, c4, c5⟩ :=
      append_cnt_fields (build_full_counts (g.2.filter (fun d => d.data_type = "cnt".data)))
        g.1 idxs td
    simp [hc, hd, series_point_toList, c1, c2, c3, c4, c5]
  · obtain ⟨c1, c2, c3, c4, c5⟩ :=
      append_cnt_fields (build_full_counts (g.2.filter (fun d => d.data_type = "cnt".data)))
        g.1 idxs td
    obtain ⟨d1, d2, d3, d4, d5⟩ :=
      append_drop_fields (build_full_counts (g.2.filter (fun d => d.data_type = "drop".data)))
        g.1
        idxs (append_cnt (build_full_counts (g.2.filter (fun d => d.data_type = "cnt".data)))
          g.1 idxs td)
    simp [hc, hd, series_point_toList, c1, c2, c3, c4, c5, d1, d2, d3, d4, d5]

/-- The pointwise effect of one timestamp group on the topic dict. -/
theorem process_group_get (m : List (Str × List Nat))
    (hm : m.Pairwise (fun p q => p.1 ≠ q.1))
    (dict : List (Str × TopicData)) (g : Str × List SOAData) (name : Str) :
    assocGet (process_group m dict g) name =
      match assocGet m name with
      | none => assocGet dict name
      | some idxs => (assocGet dict name).map (group_step idxs g) := by
  simp only [process_group]
  by_cases hc : (g.2.filter (fun d => d.data_type = "cnt".data)).isEmpty <;>
    by_cases hd : (g.2.filter (fun d => d.data_type = "drop".data)).isEmpty
  · rw [if_pos hc, if_pos hd]
    cases assocGet m name <;> cases assocGet dict name <;>
      simp [group_step, hc, hd]
  · rw [if_pos hc, if_neg hd,
      fold_apply_get (append_drop (build_full_counts
        (g.2.filter (fun d => d.data_type = "drop".data))) g.1) m hm dict name]
    cases assocGet m name <;> cases assocGet dict name <;>
      simp [group_step, hc, hd]
  · rw [if_neg hc, if_pos hd,
      fold_apply_get (append_cnt (build_full_counts
        (g.2.filter (fun d => d.data_type = "cnt".data))) g.1) m hm dict name]
    cases assocGet m name <;> cases assocGet dict name <;>
      simp [group_step, hc, hd]
  · rw [if_neg hc, if_neg hd,
      fold_apply_get (append_drop (build_full_counts
        (g.2.filter (fun d => d.data_type = "drop".data))) g.1) m hm _ name,
      fold_apply_get (append_cnt (build_full_counts
        (g.2.filter (fun d => d.data_type = "cnt".data))) g.1) m hm dict name]
    cases assocGet m name <;> cases assocGet dict name <;>
      simp [group_step, hc, hd]

theorem series_from_cons (g : Str × List SOAData) (gs : List (Str × List SOAData))
    (idx : Option Nat) (kind : Str) :
    series_from (g :: gs) idx kind =
      (series_point g idx kind).toList ++ series_from gs idx kind := by
  unfold series_from
  rw [List.filterMap_cons]
  cases series_point g idx kind <;> simp

theorem indicesInsert_mem_keys (m : List (Str × List Nat)) (nm : Str) (i : Nat) :
    ∀ q ∈ indicesInsert m nm i, q.1 ∈ m.map Prod.fst ∨ q.1 = nm := by
  induction m with
  | nil =>
    intro q hq
    simp [indicesInsert] at hq
    simp [hq]
  | cons p rest ih =>
    intro q hq
    obtain ⟨k, l⟩ := p
    by_cases hk : k = nm
    · rw [indicesInsert, if_pos hk] at hq
      rcases List.mem_cons.mp hq with hq | hq
      · left; rw [hq]; simp
      · left
        exact List.mem_cons_of_mem _ (List.mem_map_of_mem Prod.fst hq)
    · rw [indicesInsert, if_neg hk] at hq
      rcases List.mem_cons.mp hq with hq | hq
      · left; rw [hq]; simp
      · rcases ih q hq with hh | hh
        · left; simp [hh]
        · right; exact hh

theorem indicesInsert_nodupKeys (m : List (Str × List Nat)) (nm : Str) (i : Nat)
    (h : m.Pairwise (fun p q => p.1 ≠ q.1)) :
    (indicesInsert m nm i).Pairwise (fun p q => p.1 ≠ q.1) := by
  induction m with
  | nil => simp [indicesInsert]
  | cons p rest ih =>
    obtain ⟨k, l⟩ := p
    obtain ⟨hhead, htail⟩ := List.pairwise_cons.mp h
    by_cases hk : k = nm
    · rw [indicesInsert, if_pos hk]
      exact List.pairwise_cons.mpr ⟨hhead, htail⟩
    · rw [indicesInsert, if_neg hk]
      refine List.pairwise_cons.mpr ⟨?_, ih htail⟩
      intro q hq
      rcases indicesInsert_mem_keys rest nm i q hq with hh | hh
      · obtain ⟨q', hq', hfst⟩ := List.mem_map.mp hh
        rw [← hfst]
        exact hhead q' hq'
      · rw [hh]
        exact hk

theorem topic_name_to_indices_nodupKeys (topics : List Str) :
    (topic_name_to_indices topics).Pairwise (fun p q => p.1 ≠ q.1) := by
  unfold topic_name_to_indices
  generalize topics.enum = ps
  have : ∀ (ps : List (Nat × Str)) (m : List (Str × List Nat)),
      m.Pairwise (fun p q => p.1 ≠ q.1) →
      (ps.foldl (fun m p => indicesInsert m p.2 p.1) m).Pairwise
        (fun p q => p.1 ≠ q.1) := by
    intro ps
    induction ps with
    | nil => intro m h; exact h
    | cons p rest ih =>
      intro m h
      exact ih _ (indicesInsert_nodupKeys m p.2 p.1 h)
  exact this ps [] (by simp)

theorem init_topic_dict_get (m : List (Str × List Nat)) (name : Str) :
    assocGet (init_topic_dict m) name =
      (assocGet m name).map (fun _ => (⟨name, 0, [], [], []⟩ : TopicData)) := by
  induction m with
  | nil => rfl
  | cons p rest ih =>
    obtain ⟨k, l⟩ := p
    by_cases hk : k = name
    · subst hk
      simp [init_topic_dict, assocGet]
    · simp [init_topic_dict, assocGet, hk] at ih ⊢
      exact ih

/-- The timestamp-group fold appends exactly the spec's series to each
channel. -/
theorem fold_groups_get (m : List (Str × List Nat))
    (hm : m.Pairwise (fun p q => p.1 ≠ q.1)) (name : Str) (idxs : List Nat)
    (hidx : assocGet m name = some idxs) (groups : List (Str × List SOAData)) :
    ∀ (dict : List (Str × TopicData)) (td0 : TopicData),
      assocGet dict name = some td0 →
      ∃ td, assocGet (groups.foldl (process_group m) dict) name = some td ∧
        td.receive_counts =
          td0.receive_counts ++ series_from groups idxs.head? "cnt".data ∧
        td.send_counts =
          td0.send_counts ++ series_from groups (idxs.get? 1) "cnt".data ∧
        td.drop_counts =
          td0.drop_counts ++ series_from groups idxs.head? "drop".data := by
  induction groups with
  | nil =>
    intro dict td0 h0
    exact ⟨td0, h0, by simp [series_from], by simp [series_from], by simp [series_from]⟩
  | cons g gs ih =>
    intro dict td0 h0
    have hstep : assocGet (process_group m dict g) name =
        some (group_step idxs g td0) := by
      rw [process_group_get m hm dict g name, hidx, h0]
      rfl
    obtain ⟨td, h1, h2, h3, h4⟩ := ih (process_group m dict g) (group_step idxs g td0) hstep
    obtain ⟨s1, s2, s3, s4, s5⟩ := group_step_fields idxs g td0
    refine ⟨td, by simpa [List.foldl_cons] using h1, ?_, ?_, ?_⟩
    · rw [h2, s1, series_from_cons, List.append_assoc]
    · rw [h3, s2, series_from_cons, List.append_assoc]
    · rw [h4, s3, series_from_cons, List.append_assoc]

/-- C4.  Manifest occurrence semantics: for every channel of the
manifest, `process_soa_data` produces exactly the series read at its
first manifest occurrence index for `received`, at its second occurrence
(when present) for `sent`, and — from the drop flat vector — at its
first occurrence only for `dropped`. -/
theorem C4_manifest_occurrence (topics : List Str) (soa : List SOAData)
    (name : Str) (idxs : List Nat) (dict : List (Str × TopicData))
    (hproc : process_soa_data topics soa = some dict)
    (hidx : assocGet (topic_name_to_indices topics) name = some idxs) :
    ∃ td, assocGet dict name = some td ∧
      td.receive_counts = series_from (timestamp_groups soa) idxs.head? "cnt".data ∧
      td.send_counts = series_from (timestamp_groups soa) (idxs.get? 1) "cnt".data ∧
      td.drop_counts = series_from (timestamp_groups soa) idxs.head? "drop".data := by
  unfold process_soa_data at hproc
  by_cases h1 : topics.isEmpty
  · rw [if_pos h1] at hproc; cases hproc
  · rw [if_neg h1] at hproc
    by_cases h2 : soa.isEmpty
    · rw [if_pos h2] at hproc; cases hproc
    · rw [if_neg h2] at hproc
      have hdict := (Option.some_inj.mp hproc).symm
      have hm := topic_name_to_indices_nodupKeys topics
      have hinit : assocGet (init_topic_dict (topic_name_to_indices topics)) name =
          some ⟨name, 0, [], [], []⟩ := by
        rw [init_topic_dict_get, hidx]
        rfl
      obtain ⟨td, ha, hb, hc, hd⟩ :=
        fold_groups_get (topic_name_to_indices topics) hm name idxs hidx
          (timestamp_groups soa) (init_topic_dict (topic_name_to_indices topics))
          ⟨name, 0, [], [], []⟩ hinit
      refine ⟨td, ?_, by simpa using hb, by simpa using hc, by simpa using hd⟩
      rw [hdict]
      exact ha

/-- C4 witness: manifest `["A", "B", "A"]` with slots 0..2 = 5, 7, 9 at
one timestamp gives A `received=[(ts,5)], sent=[(ts,9)]` and B
`received=[(ts,7)], sent=[]`. -/
theorem C4_witness :
    (∃ dict, process_soa_data c4_topics c4_soa = some dict ∧
      (∃ tdA, assocGet dict "A".data = some tdA ∧
        tdA.receive_counts = [("ts".data, 5)] ∧
        tdA.send_counts = [("ts".data, 9)] ∧
        tdA.drop_counts = []) ∧
      (∃ tdB, assocGet dict "B".data = some tdB ∧
        tdB.receive_counts = [("ts".data, 7)] ∧
        tdB.send_counts = [])) := by
  cases hp : process_soa_data c4_topics c4_soa with
  | none => exact absurd hp (by decide)
  | some dict =>
    refine ⟨dict, rfl, ?_, ?_⟩
    · obtain ⟨td, h1, h2, h3, h4⟩ :=
        C4_manifest_occurrence c4_topics c4_soa "A".data [0, 2] dict hp (by decide)
      refine ⟨td, h1, ?_, ?_, ?_⟩
      · rw [h2]; decide
      · rw [h3]; decide
      · rw [h4]; decide
    · obtain ⟨td, h1, h2, h3, h4⟩ :=
        C4_manifest_occurrence c4_topics c4_soa "B".data [1] dict hp (by decide)
      refine ⟨td, h1, ?_, ?_⟩
      · rw [h2]; decide
      · rw [h3]; decide

theorem overlayFrom_length (cs : List Nat) :
    ∀ (f : List Nat) (pos : Nat), (overlayFrom f pos cs).length = f.length := by
  induction cs with
  | nil => intro f pos; rfl
  | cons c cs ih =>
    intro f pos
    simp only [overlayFrom]
    rw [ih]
    by_cases h : pos < f.length <;> simp [h, List.length_set]

theorem foldl_overlay_length (ds : List SOAData) :
    ∀ f : List Nat, (ds.foldl overlaySample f).length = f.length := by
  induction ds with
  | nil => intro f; rfl
  | cons d rest ih =>
    intro f
    simp only [List.foldl_cons]
    rw [ih, overlaySample, overlayFrom_length]

/-- Pointwise behaviour of one sample's overlay loop. -/
theorem overlayFrom_getElem (cs : List Nat) :
    ∀ (f : List Nat) (pos j : Nat),
      (overlayFrom f pos cs)[j]? =
        if pos ≤ j ∧ j < pos + cs.length ∧ j < f.length then
          some (cs.getD (j - pos) 0)
        else f[j]? := by
  induction cs with
  | nil =>
    intro f pos j
    rw [if_neg (by simp only [List.length_nil]; omega)]
    rfl
  | cons c cs ih =>
    intro f pos j
    simp only [overlayFrom]
    rw [ih]
    have hlen : (if pos < f.length then f.set pos c else f).length = f.length := by
      by_cases h : pos < f.length <;> simp [h, List.length_set]
    by_cases h1 : pos + 1 ≤ j ∧ j < pos + 1 + cs.length ∧ j < f.length
    · rw [if_pos (by rw [hlen]; omega), if_pos (by simp; omega)]
      have : j - pos = (j - (pos + 1)) + 1 := by omega
      rw [this]
      rfl
    · rw [if_neg (by rw [hlen]; omega)]
      by_cases h2 : pos ≤ j ∧ j < pos + (c :: cs).length ∧ j < f.length
      · have hj : j = pos := by simp at h2 h1; omega
        subst hj
        rw [if_pos h2, if_pos h2.2.2]
        rw [List.getElem?_set_eq_of_lt c h2.2.2]
        simp
      · rw [if_neg h2]
        by_cases h3 : pos < f.length
        · rw [if_pos h3]
          have : pos ≠ j := by simp at h2 h1; omega
          rw [List.getElem?_set_ne this]
        · rw [if_neg h3]

/-- Slots no sample covers keep their original value. -/
theorem foldl_overlay_uncovered (ds : List SOAData) :
    ∀ (f : List Nat) (j : Nat),
      (∀ d ∈ ds, ¬(d.base_index ≤ j ∧ j < d.base_index + d.counts.length)) →
      (ds.foldl overlaySample f)[j]? = f[j]? := by
  induction ds with
  | nil => intro f j _; rfl
  | cons d rest ih =>
    intro f j hnc
    simp only [List.foldl_cons]
    rw [ih _ _ (fun d' hd' => hnc d' (List.mem_cons_of_mem _ hd'))]
    rw [overlaySample, overlayFrom_getElem]
    rw [if_neg ?_]
    have := hnc d (List.mem_cons_self _ _)
    omega

/-- Covered slots hold the value of the last covering sample. -/
theorem foldl_overlay_covered (ds : List SOAData) :
    ∀ (f : List Nat) (j : Nat),
      (∀ d ∈ ds, d.base_index + d.counts.length ≤ f.length) →
      (ds.foldl overlaySample f)[j]? =
        match last_cover ds j with
        | some v => some v
        | none => f[j]? := by
  induction ds with
  | nil => intro f j _; rfl
  | cons d rest ih =>
    intro f j hrange
    simp only [List.foldl_cons, last_cover]
    have hlen : (overlaySample f d).length = f.length := by
      rw [overlaySample, overlayFrom_length]
    rw [ih _ _ (fun d' hd' => by rw [hlen]; exact hrange d' (List.mem_cons_of_mem _ hd'))]
    cases last_cover rest j with
    | some v => rfl
    | none =>
      simp only []
      rw [overlaySample, overlayFrom_getElem]
      by_cases hcov : d.base_index ≤ j ∧ j < d.base_index + d.counts.length
      · have hj : j < f.length := by
          have := hrange d (List.mem_cons_self _ _)
          omega
        rw [if_pos ⟨hcov.1, hcov.2, hj⟩, if_pos hcov]
      · rw [if_neg (by omega), if_neg hcov]

theorem foldl_max_sample_le (rest : List SOAData) :
    ∀ b : Nat, b ≤ rest.foldl (fun m x => max m (x.base_index + x.counts.length)) b := by
  induction rest with
  | nil => intro b; exact le_refl b
  | cons r rs ihr =>
    intro b
    simp only [List.foldl_cons]
    exact le_trans (le_max_left _ _) (ihr _)

theorem flat_length_ge (ds : List SOAData) :
    ∀ (a : Nat) (d : SOAData), d ∈ ds →
      d.base_index + d.counts.length ≤
        ds.foldl (fun m x => max m (x.base_index + x.counts.length)) a := by
  induction ds with
  | nil => intro a d hd; cases hd
  | cons e rest ih =>
    intro a d hd
    simp only [List.foldl_cons]
    rcases List.mem_cons.mp hd with h | h
    · subst h
      exact le_trans (le_max_right _ _) (foldl_max_sample_le rest _)
    · exact ih _ d h

/-- C5.  Flat-vector reconstruction invariant: the rebuilt counter vector
has length `max(base_offset + len(values))` over the samples (0 for no
samples); every slot no sample covers holds 0; every covered slot holds
the value written by the last covering sample in iteration order — in
particular overlapping samples are handled totally, never a crash. -/
theorem C5_flat_vector_invariant (ds : List SOAData) :
    (build_full_counts ds).length = flat_length ds ∧
    (∀ j, j < flat_length ds →
      (∀ d ∈ ds, ¬(d.base_index ≤ j ∧ j < d.base_index + d.counts.length)) →
      (build_full_counts ds)[j]? = some 0) ∧
    (∀ j v, last_cover ds j = some v → (build_full_counts ds)[j]? = some v) := by
  refine ⟨?_, ?_, ?_⟩
  · rw [build_full_counts, foldl_overlay_length, List.length_replicate]
  · intro j hj hnc
    rw [build_full_counts, foldl_overlay_uncovered ds _ j hnc]
    simp [List.getElem?_replicate, hj]
  · intro j v hcov
    rw [build_full_counts,
      foldl_overlay_covered ds _ j
        (fun d hd => by rw [List.length_replicate]; exact flat_length_ge ds 0 d hd),
      hcov]

/-- C5 witness: the overlapping example group — length 5, uncovered slot
1 holds 0, twice-covered slot 3 holds the later sample's value 8. -/
theorem C5_witness :
    flat_length c5_example_samples = 5 ∧
    (∀ d ∈ c5_example_samples, ¬(d.base_index ≤ 1 ∧ 1 < d.base_index + d.counts.length)) ∧
    last_cover c5_example_samples 3 = some 8 ∧
    (build_full_counts c5_example_samples).length = 5 ∧
    (build_full_counts c5_example_samples)[1]? = some 0 ∧
    (build_full_counts c5_example_samples)[3]? = some 8 := by
  refine ⟨by decide, by decide, by decide, ?_, ?_, ?_⟩
  · rw [(C5_flat_vector_invariant c5_example_samples).1]; decide
  · exact (C5_flat_vector_invariant c5_example_samples).2.1 1 (by decide) (by decide)
  · exact (C5_flat_vector_invariant c5_example_samples).2.2 3 8 (by decide)

theorem optionCollapse {α : Type} (o : Option α) :
    (match o with | some v => some v | none => none) = o := by
  cases o <;> rfl

theorem assocInsert_mem_keys {κ α : Type} [DecidableEq κ]
    (d : List (κ × α)) (k : κ) (v : α) :
    ∀ q ∈ assocInsert d k v, q.1 ∈ d.map Prod.fst ∨ q.1 = k := by
  induction d with
  | nil =>
    intro q hq
    simp [assocInsert] at hq
    simp [hq]
  | cons p rest ih =>
    intro q hq
    obtain ⟨k', v'⟩ := p
    by_cases h : k' = k
    · rw [assocInsert, if_pos h] at hq
      rcases List.mem_cons.mp hq with hq | hq
      · right; rw [hq]
      · left
        exact List.mem_cons_of_mem _ (List.mem_map_of_mem Prod.fst hq)
    · rw [assocInsert, if_neg h] at hq
      rcases List.mem_cons.mp hq with hq | hq
      · left; rw [hq]; simp
      · rcases ih q hq with hh | hh
        · left; simp [hh]
        · right; exact hh

theorem assocInsert_nodupKeys {κ α : Type} [DecidableEq κ]
    (d : List (κ × α)) (k : κ) (v : α)
    (h : d.Pairwise (fun p q => p.1 ≠ q.1)) :
    (assocInsert d k v).Pairwise (fun p q => p.1 ≠ q.1) := by
  induction d with
  | nil => simp [assocInsert]
  | cons p rest ih =>
    obtain ⟨k', v'⟩ := p
    obtain ⟨hhead, htail⟩ := List.pairwise_cons.mp h
    by_cases hk : k' = k
    · rw [assocInsert, if_pos hk]
      refine List.pairwise_cons.mpr ⟨?_, htail⟩
      intro q hq
      rw [← hk]
      exact hhead q hq
    · rw [assocInsert, if_neg hk]
      refine List.pairwise_cons.mpr ⟨?_, ih htail⟩
      intro q hq
      rcases assocInsert_mem_keys rest k v q hq with hh | hh
      · obtain ⟨q', hq', hfst⟩ := List.mem_map.mp hh
        rw [← hfst]
        exact hhead q' hq'
      · rw [hh]
        exact hk

theorem dictUpdate_nodupKeys {κ α : Type} [DecidableEq κ] (ps : List (κ × α)) :
    ∀ d : List (κ × α), d.Pairwise (fun p q => p.1 ≠ q.1) →
      (dictUpdate d ps).Pairwise (fun p q => p.1 ≠ q.1) := by
  induction ps with
  | nil => intro d h; exact h
  | cons p rest ih =>
    intro d h
    exact ih _ (assocInsert_nodupKeys d p.1 p.2 h)

theorem lookupLast_eq_assocGet_of_nodup {κ α : Type} [DecidableEq κ]
    (l : List (κ × α)) (hl : l.Pairwise (fun p q => p.1 ≠ q.1)) (k : κ) :
    lookupLast l k = assocGet l k := by
  induction l with
  | nil => rfl
  | cons p rest ih =>
    obtain ⟨k', v⟩ := p
    obtain ⟨hhead, htail⟩ := List.pairwise_cons.mp hl
    by_cases hk : k' = k
    · have hrest : lookupLast rest k = none := by
        by_contra hne
        have : (lookupLast rest k).isSome := Option.ne_none_iff_isSome.mp hne
        have hmem := (lookupLast_isSome_iff_mem rest k).mp this
        obtain ⟨q, hq, hfst⟩ := List.mem_map.mp hmem
        exact hhead q hq (hk.trans hfst.symm)
      rw [lookupLast, hrest, assocGet]
      simp [hk]
    · rw [lookupLast, ih htail, assocGet]
      cases hg : assocGet rest k with
      | some v' => simp [hk, hg]
      | none => simp [hk, hg]

/-- Merging a dict built from a pair list into `g` is, pointwise, the
same as folding the pair list straight into `g`. -/
theorem dictUpdate_built_pointwise {κ α : Type} [DecidableEq κ]
    (g ps : List (κ × α)) (k : κ) :
    assocGet (dictUpdate g (dictUpdate [] ps)) k = assocGet (dictUpdate g ps) k := by
  have hA : ∀ (g' ms : List (κ × α)),
      assocGet (dictUpdate g' ms) k =
        match lookupLast ms k with
        | some v => some v
        | none => assocGet g' k := by
    intro g' ms
    exact assocGet_foldl_insert ms g' k
  have hnodup : (dictUpdate ([] : List (κ × α)) ps).Pairwise (fun p q => p.1 ≠ q.1) :=
    dictUpdate_nodupKeys ps [] (by simp)
  rw [hA g (dictUpdate [] ps), hA g ps,
    lookupLast_eq_assocGet_of_nodup _ hnodup, hA [] ps]
  cases lookupLast ps k with
  | some v => rfl
  | none => simp [assocGet]

/-- Folding whole-chunk merges equals folding the concatenated pair
lists, pointwise. -/
theorem merge_chunks_pointwise {κ α : Type} [DecidableEq κ]
    (pss : List (List (κ × α))) :
    ∀ (g : List (κ × α)) (k : κ),
      assocGet (pss.foldl (fun g ps => dictUpdate g (dictUpdate [] ps)) g) k =
        assocGet (dictUpdate g pss.flatten) k := by
  induction pss with
  | nil => intro g k; rfl
  | cons ps rest ih =>
    intro g k
    simp only [List.foldl_cons, List.flatten]
    rw [ih]
    have hsplit : dictUpdate g (ps ++ rest.flatten) =
        dictUpdate (dictUpdate g ps) rest.flatten := by
      simp [dictUpdate, List.foldl_append]
    rw [hsplit]
    have hcong : ∀ k', assocGet (dictUpdate g (dictUpdate [] ps)) k' =
        assocGet (dictUpdate g ps) k' := fun k' => dictUpdate_built_pointwise g ps k'
    have hA : ∀ (g' : List (κ × α)),
        assocGet (dictUpdate g' rest.flatten) k =
          match lookupLast rest.flatten k with
          | some v => some v
          | none => assocGet g' k := by
      intro g'
      exact assocGet_foldl_insert rest.flatten g' k
    rw [hA, hA]
    cases lookupLast rest.flatten k with
    | some v => rfl
    | none => exact hcong k

/-- One parsed line updates the three dictionaries by the three
per-line assignments. -/
theorem parseMapLine_fields (st : MapFileState) (line : Str) :
    (parseMapLine st line).symbols =
      (match symbol_assign line with
       | none => st.symbols
       | some p => assocInsert st.symbols p.1 p.2) ∧
    (parseMapLine st line).functions =
      (match function_assign line with
       | none => st.functions
       | some p => assocInsert st.functions p.1 p.2) ∧
    (parseMapLine st line).variables_ =
      (match variable_assign line with
       | none => st.variables_
       | some p => assocInsert st.variables_ p.1 p.2) := by
  unfold parseMapLine symbol_assign function_assign variable_assign
  cases hp : parse_line_symbol line with
  | none => exact ⟨rfl, rfl, rfl⟩
  | some p =>
    obtain ⟨a, n⟩ := p
    unfold recordSymbol
    by_cases hf : is_function_symbol n
    · simp [hf]
    · simp [hf]

/-- The line fold factors into three independent dictionary folds. -/
theorem parse_lines_factor (lines : List Str) :
    ∀ st : MapFileState,
      (lines.foldl parseMapLine st).symbols =
        dictUpdate st.symbols (lines.filterMap symbol_assign) ∧
      (lines.foldl parseMapLine st).functions =
        dictUpdate st.functions (lines.filterMap function_assign) ∧
      (lines.foldl parseMapLine st).variables_ =
        dictUpdate st.variables_ (lines.filterMap variable_assign) := by
  induction lines with
  | nil => intro st; exact ⟨rfl, rfl, rfl⟩
  | cons line rest ih =>
    intro st
    simp only [List.foldl_cons, List.filterMap_cons]
    obtain ⟨h1, h2, h3⟩ := parseMapLine_fields st line
    obtain ⟨i1, i2, i3⟩ := ih (parseMapLine st line)
    refine ⟨?_, ?_, ?_⟩
    · rw [i1, h1]
      cases symbol_assign line with
      | none => rfl
      | some p => simp [dictUpdate]
    · rw [i2, h2]
      cases function_assign line with
      | none => rfl
      | some p => simp [dictUpdate]
    · rw [i3, h3]
      cases variable_assign line with
      | none => rfl
      | some p => simp [dictUpdate]

/-- The chunks cover the line list exactly. -/
theorem map_chunks_join_aux (cs : Nat) (l : List Str) :
    ∀ m : Nat,
      (((List.range m).map (fun i => (l.drop (i * cs)).take cs)).flatten
        ++ l.drop (m * cs)) = l := by
  intro m
  induction m with
  | zero => simp
  | succ m ihm =>
    rw [List.range_succ, List.map_append, List.flatten_append]
    simp only [List.map_cons, List.map_nil, List.flatten_cons, List.flatten_nil]
    have hdrop : l.drop ((m + 1) * cs) = (l.drop (m * cs)).drop cs := by
      rw [List.drop_drop]
      congr 1
      ring
    rw [hdrop, List.append_nil, List.append_assoc, List.take_append_drop]
    exact ihm

theorem map_chunks_join (lines : List Str) (w : Nat) (hw : 1 ≤ w) :
    (map_chunks lines w).flatten = lines := by
  unfold map_chunks
  obtain ⟨w', rfl⟩ : ∃ w', w = w' + 1 := ⟨w - 1, by omega⟩
  rw [List.range_succ, List.map_append]
  simp only [List.map_cons, List.map_nil]
  have hlast : ¬(w' < w' + 1 - 1) := by omega
  rw [if_neg hlast]
  have hmap : ((List.range w').map (fun i =>
      if i < w' + 1 - 1 then (lines.drop (i * (lines.length / (w' + 1)))).take
        (lines.length / (w' + 1))
      else lines.drop (i * (lines.length / (w' + 1))))) =
      (List.range w').map (fun i =>
        (lines.drop (i * (lines.length / (w' + 1)))).take (lines.length / (w' + 1))) := by
    apply List.map_congr_left
    intro i hi
    have : i < w' + 1 - 1 := by
      have := List.mem_range.mp hi
      omega
    rw [if_pos this]
  rw [hmap, List.flatten_append]
  simp only [List.flatten_cons, List.flatten_nil, List.append_nil]
  exact map_chunks_join_aux (lines.length / (w' + 1)) lines w'

theorem foldl_range_getD {α β : Type} (g : α → β → α) (dflt : β) :
    ∀ (L : List β) (s0 : α),
      (List.range L.length).foldl (fun s i => g s (L.getD i dflt)) s0 = L.foldl g s0 := by
  intro L
  induction L with
  | nil => intro s0; rfl
  | cons x xs ih =>
    intro s0
    rw [List.length_cons, List.range_succ_eq_map, List.foldl_cons, List.foldl_map]
    simp only [List.getD_cons_succ, List.getD_cons_zero]
    exact ih _

/-- C9 amended.  Parallel/serial map-parse equivalence holds when the
chunk results are merged in chunk order: for every worker count `w ≥ 1`,
parsing via the chunked path with completion order `0, 1, ..., w-1`
yields, pointwise, the same `symbols`, `functions` and `variables` maps
as the serial path. -/
theorem C9_amended_chunk_order_equiv (content : Str) (w : Nat) (hw : 1 ≤ w) (k : Str) :
    assocGet (parse_tasking_map_parallel content w (List.range w)
        emptyMapFileState).symbols k =
      assocGet (parse_tasking_map content emptyMapFileState).symbols k ∧
    assocGet (parse_tasking_map_parallel content w (List.range w)
        emptyMapFileState).functions k =
      assocGet (parse_tasking_map content emptyMapFileState).functions k ∧
    assocGet (parse_tasking_map_parallel content w (List.range w)
        emptyMapFileState).variables_ k =
      assocGet (parse_tasking_map content emptyMapFileState).variables_ k := by
  set lines := splitOnChar '\n' content with hlines
  have hserial := parse_lines_factor lines emptyMapFileState
  have hchunklen : ((map_chunks lines w).map parse_chunk).length = w := by
    simp [map_chunks]
  have hpar : parse_tasking_map_parallel content w (List.range w) emptyMapFileState =
      ((map_chunks lines w).map parse_chunk).foldl mergeChunkResult emptyMapFileState := by
    have h := foldl_range_getD mergeChunkResult emptyMapFileState
      ((map_chunks lines w).map parse_chunk) emptyMapFileState
    rw [hchunklen] at h
    exact h
  have hjoin := map_chunks_join lines w hw
  -- reduce the chunk-state fold to the three dictionary folds
  have hfold : ∀ (chs : List (List Str)) (st : MapFileState),
      ((chs.map parse_chunk).foldl mergeChunkResult st).symbols =
        chs.foldl (fun g ch => dictUpdate g
          (dictUpdate [] (ch.filterMap symbol_assign))) st.symbols ∧
      ((chs.map parse_chunk).foldl mergeChunkResult st).functions =
        chs.foldl (fun g ch => dictUpdate g
          (dictUpdate [] (ch.filterMap function_assign))) st.functions ∧
      ((chs.map parse_chunk).foldl mergeChunkResult st).variables_ =
        chs.foldl (fun g ch => dictUpdate g
          (dictUpdate [] (ch.filterMap variable_assign))) st.variables_ := by
    intro chs
    induction chs with
    | nil => intro st; exact ⟨rfl, rfl, rfl⟩
    | cons ch rest ih =>
      intro st
      simp only [List.map_cons, List.foldl_cons]
      obtain ⟨j1, j2, j3⟩ := ih (mergeChunkResult st (parse_chunk ch))
      obtain ⟨l1, l2, l3⟩ := parse_lines_factor ch emptyMapFileState
      refine ⟨?_, ?_, ?_⟩
      · rw [j1]; unfold mergeChunkResult
        simp only []
        rw [show (parse_chunk ch).symbols =
          dictUpdate [] (ch.filterMap symbol_assign) from l1]
      · rw [j2]; unfold mergeChunkResult
        simp only []
        rw [show (parse_chunk ch).functions =
          dictUpdate [] (ch.filterMap function_assign) from l2]
      · rw [j3]; unfold mergeChunkResult
        simp only []
        rw [show (parse_chunk ch).variables_ =
          dictUpdate [] (ch.filterMap variable_assign) from l3]
  obtain ⟨f1, f2, f3⟩ := hfold (map_chunks lines w) emptyMapFileState
  have hjoin_fm : ∀ (assign : Str → Option (Str × MapSymbol)),
      ((map_chunks lines w).map (fun ch => ch.filterMap assign)).flatten =
        lines.filterMap assign := by
    intro assign
    rw [← List.filterMap_flatten, hjoin]
  have hjoin_fm2 : ∀ (assign : Str → Option (Str × Str)),
      ((map_chunks lines w).map (fun ch => ch.filterMap assign)).flatten =
        lines.filterMap assign := by
    intro assign
    rw [← List.filterMap_flatten, hjoin]
  have hser_eq : parse_tasking_map content emptyMapFileState =
      lines.foldl parseMapLine emptyMapFileState := rfl
  refine ⟨?_, ?_, ?_⟩
  · rw [hpar, f1, hser_eq, hserial.1]
    have := merge_chunks_pointwise
      ((map_chunks lines w).map (fun ch => ch.filterMap symbol_assign))
      (emptyMapFileState.symbols) k
    rw [List.foldl_map] at this
    rw [this, hjoin_fm symbol_assign]
  · rw [hpar, f2, hser_eq, hserial.2.1]
    have := merge_chunks_pointwise
      ((map_chunks lines w).map (fun ch => ch.filterMap function_assign))
      (emptyMapFileState.functions) k
    rw [List.foldl_map] at this
    rw [this, hjoin_fm2 function_assign]
  · rw [hpar, f3, hser_eq, hserial.2.2]
    have := merge_chunks_pointwise
      ((map_chunks lines w).map (fun ch => ch.filterMap variable_assign))
      (emptyMapFileState.variables_) k
    rw [List.foldl_map] at this
    rw [this, hjoin_fm2 variable_assign]

/-- C9 witness: merging the two duplicate-address chunks in chunk order
agrees with the serial parse at the shared key. -/
theorem C9_witness :
    (1 : Nat) ≤ 2 ∧
    (assocGet (parse_tasking_map_parallel
        "|aaa|0x00000001|\n|bbb|0x00000001|".data 2 (List.range 2)
        emptyMapFileState).symbols "0x00000001".data =
      assocGet (parse_tasking_map "|aaa|0x00000001|\n|bbb|0x00000001|".data
        emptyMapFileState).symbols "0x00000001".data) ∧
    assocGet (parse_tasking_map "|aaa|0x00000001|\n|bbb|0x00000001|".data
        emptyMapFileState).symbols "0x00000001".data =
      some ⟨"0x00000001".data, "bbb".data, [], []⟩ := by
  refine ⟨by omega, ?_, by decide⟩
  exact (C9_amended_chunk_order_equiv
    "|aaa|0x00000001|\n|bbb|0x00000001|".data 2 (by omega) "0x00000001".data).1

/-- C9 counterexample: the two rows assign different names to the same
address; merged in completion order `[1, 0]` the parallel parse keeps
`aaa` while the serial parse keeps `bbb`, so the final symbols maps
differ. -/
theorem C9_counterexample :
    assocGet (parse_tasking_map_parallel
        "|aaa|0x00000001|\n|bbb|0x00000001|".data 2 [1, 0]
        emptyMapFileState).symbols "0x00000001".data ≠
    assocGet (parse_tasking_map
        "|aaa|0x00000001|\n|bbb|0x00000001|".data
        emptyMapFileState).symbols "0x00000001".data := by decide

end ECU
